import Mathlib

/-!
Verification of the universal website downloader (`universal_site_downloader.py`).

This file gives a shallow embedding of the crawl-and-mirror engine of
`WebsiteDownloader` and proves/refutes the specification claims about it.

Modelling conventions:

* URLs are modelled structurally as `Url` (scheme, host, path, query, fragment),
  corresponding to the components produced by Python's `urlparse`.  Set and
  queue membership in the Python code is string equality of URL strings; the
  model uses structural equality of the parsed components.
* Local filesystem paths are modelled as `List String`: the list of path
  segments under the output root.  Joining with `pathlib.Path` drops empty
  and `"."` components, which the model mirrors in `pathJoin`.
* Percent decoding (`urllib.parse.unquote`) is modelled at the code-point
  level: each `%XX` pair with two hex digits becomes the character with code
  `XX`.  (Python additionally groups consecutive `%XX` bytes and decodes them
  as UTF-8; the difference only concerns non-ASCII byte sequences and is
  shared identically by the code model and the spec model below, so it does
  not affect any comparison made in this file.)
* The network, the robots policy and the parsed HTML documents are supplied
  by an environment value `SiteModel` (deterministic per run, as the script
  holds one `requests.Session` and one `RobotFileParser` per run).
-/

set_option maxRecDepth 4096

/-- A parsed URL, as produced by Python's `urlparse`: scheme, network
location (host), path, query and fragment.  The `params` component of
`urlparse` (separated by `;`) is not used by the script and is omitted. -/
structure Url where
  scheme : String
  host : String
  path : String
  query : String
  fragment : String
deriving DecidableEq

/-- The clean URL `f"{parsed.scheme}://{parsed.netloc}{parsed.path}"` plus the query when
non-empty, as built in `extract_links`: the fragment is dropped. -/
def cleanUrl (u : Url) : Url :=
  { u with fragment := "" }

/-! ## Percent decoding (`urllib.parse.unquote`) -/

/-- Value of a hex digit, `none` for non-hex characters. -/
def hexDigitVal (c : Char) : Option Nat :=
  if '0' ≤ c ∧ c ≤ '9' then some (c.toNat - '0'.toNat)
  else if 'a' ≤ c ∧ c ≤ 'f' then some (c.toNat - 'a'.toNat + 10)
  else if 'A' ≤ c ∧ c ≤ 'F' then some (c.toNat - 'A'.toNat + 10)
  else none

/-- Percent decoding on a character list: `%XX` (two hex digits) becomes the
character with code `XX`; a `%` not followed by two hex digits is literal. -/
def unquoteList : List Char → List Char
  | [] => []
  | '%' :: a :: b :: rest =>
    match hexDigitVal a, hexDigitVal b with
    | some x, some y => Char.ofNat (16 * x + y) :: unquoteList rest
    | _, _ => '%' :: unquoteList (a :: b :: rest)
  | c :: rest => c :: unquoteList rest

/-- Models `urllib.parse.unquote` on strings (see the modelling note above). -/
def unquote (s : String) : String :=
  String.mk (unquoteList s.toList)

/-! ## `sanitize_filename` -/

/-- The characters replaced by `re.sub(r'[<>:"/\\|?*]', '_', filename)`. -/
def isIllegalFsChar (c : Char) : Bool :=
  c = '<' ∨ c = '>' ∨ c = ':' ∨ c = '"' ∨ c = '/' ∨ c = '\\' ∨ c = '|' ∨ c = '?' ∨ c = '*'

/-- One character of `re.sub(r'[<>:"/\\|?*]', '_', ·)`. -/
def replaceIllegal (c : Char) : Char :=
  if isIllegalFsChar c then '_' else c

/-- Models `re.sub(r'_+', '_', ·)`: collapse each run of underscores to a single
underscore (realised right-to-left: drop an underscore whose successor is
already an underscore). -/
def collapseUnderscores (l : List Char) : List Char :=
  l.foldr (fun c acc => if c = '_' ∧ acc.head? = some '_' then acc else c :: acc) []

/-- Membership in the strip set of `str.strip('. _')`. -/
def isStripChar (c : Char) : Bool :=
  c = '.' ∨ c = ' ' ∨ c = '_'

/-- Models `str.strip('. _')`: remove leading and trailing characters belonging to
`{'.', ' ', '_'}`. -/
def stripDotsSpaces (l : List Char) : List Char :=
  ((l.dropWhile isStripChar).reverse.dropWhile isStripChar).reverse

/-- Models `WebsiteDownloader.sanitize_filename`: replace the characters
`<>:"/\|?*` with `_`, collapse runs of `_`, strip leading/trailing
`.`/space/`_`, and truncate to 255 characters. -/
def sanitize_filename (s : String) : String :=
  String.mk ((stripDotsSpaces (collapseUnderscores (s.toList.map replaceIllegal))).take 255)

/-! ## `get_local_path` -/

/-- Split a character list at every occurrence of a separator character
(Python `str.split(sep)` semantics: `"".split` gives one empty piece,
separators at the ends give empty pieces). -/
def splitOnCharList (sep : Char) (l : List Char) : List (List Char) :=
  l.foldr
    (fun c acc =>
      match acc with
      | [] => [[c]]
      | h :: t => if c = sep then [] :: h :: t else (c :: h) :: t)
    [[]]

/-- Python `p.split('/')` on strings. -/
def splitOnSlash (s : String) : List String :=
  (splitOnCharList '/' s.toList).map String.mk

/-- Python `s.endswith('/')`. -/
def endsWithSlash (s : String) : Bool :=
  s.toList.getLast? = some '/'

/-- Models `pathlib.PurePosixPath(p).name`: the last path component after pathlib's
parsing, which discards empty components and `"."` components. -/
def pathlibName (p : String) : String :=
  (((splitOnSlash p).filter (fun s => s ≠ "" ∧ s ≠ ".")).getLast?).getD ""

/-- Joining path segments with `pathlib.Path(*parts)`: empty and `"."`
components contribute nothing to the resulting path. -/
def pathJoin (parts : List String) : List String :=
  parts.filter (fun s => s ≠ "" ∧ s ≠ ".")

/-- Models `str.lstrip('/')`: drop all leading slashes. -/
def lstripSlashes (s : String) : String :=
  String.mk (s.toList.dropWhile (fun c => c = '/'))

/-- Core of `WebsiteDownloader.get_local_path` applied to the already
percent-decoded URL path, returning the path segments under the output
directory. -/
def localSegsOfDecoded (path : String) : List String :=
  if path = "" ∨ path = "/" then ["index.html"]
  else
    let p1 := lstripSlashes path
    let p2 :=
      if endsWithSlash p1 then p1 ++ "index.html"
      else if '.' ∈ (pathlibName p1).toList then p1
      else p1 ++ ".html"
    pathJoin ((splitOnSlash p2).map sanitize_filename)

/-- Models `WebsiteDownloader.get_local_path`: URL → local path.  The result is
`output_dir ++ localSegs u` as a segment list; `localSegs` gives the segments
below the output directory.  Only `parsed.path` of the URL is consulted. -/
def localSegs (u : Url) : List String :=
  localSegsOfDecoded (unquote u.path)

/-- The full `get_local_path` including the output root, `self.output_dir / Path(*parts)`. -/
def get_local_path (output_dir : List String) (u : Url) : List String :=
  output_dir ++ localSegs u

/-! ## The Path Mapper algorithm as worded by the specification (§4.2)

For the refinement claim C1 we also transcribe the algorithm exactly as the
specification words it, to be compared with `get_local_path` above:
"decode percent-encoding in the path; if path is empty or `/`, map to
`outputRoot/index.html`; else strip the leading slash; if path ends in `/`,
append `index.html`; else if the final path segment has no `.`, append
`.html`", followed by the per-segment sanitisation (identical wording to
`sanitize_filename`) and joining under the output root. -/

/-- The final path segment in the spec's naive reading: the last
slash-separated piece of the path string. -/
def lastNaiveSeg (p : String) : String :=
  ((splitOnSlash p).getLast?).getD ""

/-- Strip the leading slash (one slash), as the spec words it. -/
def stripOneSlash (s : String) : String :=
  match s.toList with
  | '/' :: rest => String.mk rest
  | _ => s

/-- The Path Mapper algorithm exactly as the specification words it
(segments under the output root). -/
def toLocalPath_spec (u : Url) : List String :=
  let path := unquote u.path
  if path = "" ∨ path = "/" then ["index.html"]
  else
    let p1 := stripOneSlash path
    let p2 :=
      if endsWithSlash p1 then p1 ++ "index.html"
      else if '.' ∈ (lastNaiveSeg p1).toList then p1
      else p1 ++ ".html"
    pathJoin ((splitOnSlash p2).map sanitize_filename)

/-- The Path Mapper algorithm as amended to match the code: all leading
slashes are stripped (`lstrip('/')`), and the extension test looks at the
final path component in pathlib's sense (empty and `"."` components
discarded). -/
def toLocalPath_amended (u : Url) : List String :=
  let path := unquote u.path
  if path = "" ∨ path = "/" then ["index.html"]
  else
    let p1 := lstripSlashes path
    let p2 :=
      if endsWithSlash p1 then p1 ++ "index.html"
      else if '.' ∈ (pathlibName p1).toList then p1
      else p1 ++ ".html"
    pathJoin ((splitOnSlash p2).map sanitize_filename)

/-! ## Relative paths (`os.path.relpath`) and their resolution

`update_links_in_html` rewrites each same-domain reference to
`os.path.relpath(local_path, base_path)` where `base_path` is the parent
directory of the page's own local path.  Paths are modelled as segment
lists.  `relpathSegs` is `os.path.relpath` on POSIX (where it is total; the
`ValueError` fallback branch of the code is reachable only on Windows
drives): climb with `".."` for each remaining component of the start path
past the longest common prefix, then descend with the remaining components
of the target; an empty result is `os.curdir`, i.e. `"."`. -/

/-- Length of the longest common prefix of two segment lists. -/
def commonLen : List String → List String → Nat
  | a :: as, b :: bs => if a = b then commonLen as bs + 1 else 0
  | _, _ => 0

/-- Models `os.path.relpath(target, start)` on POSIX, on segment lists. -/
def relpathSegs (target start : List String) : List String :=
  let c := commonLen target start
  let rel := List.replicate (start.length - c) ".." ++ target.drop c
  if rel = [] then ["."] else rel

/-- Resolving a relative path against a base directory, as a browser or the
filesystem does: `"."` is skipped, `".."` pops the last base segment, any
other segment descends. -/
def resolveSegs (base : List String) (rel : List String) : List String :=
  rel.foldl
    (fun acc s => if s = "." then acc else if s = ".." then acc.dropLast else acc ++ [s])
    base

/-! ## HTML documents and the extraction / rewriting passes -/

/-- The element names the downloader cares about.  `other` stands for any
further tag (relevant only through its `style` attribute). -/
inductive HtmlTag
  | a | link | img | script | video | audio | source | other
deriving DecidableEq

/-- An attribute value: either still a remote reference (modelled by the
absolute URL the raw attribute string resolves to against the page URL via
`urljoin`), or a local relative path written by the rewriting pass. -/
inductive AttrVal
  | remote (u : Url)
  | localRef (rel : List String)
deriving DecidableEq

/-- One element of the parsed document (`BeautifulSoup` tree), restricted to
what the downloader reads: tag name, whether a `link` carries
`rel="stylesheet"`, the `href` and `src` attributes, and the `url(...)`
references found in an inline `style` attribute.  Attribute values are
modelled post-`urljoin`: in a freshly parsed document every present value is
`AttrVal.remote`. -/
structure HtmlElem where
  tag : HtmlTag
  relStylesheet : Bool := false
  href : Option AttrVal := none
  src : Option AttrVal := none
  styleRefs : List AttrVal := []
deriving DecidableEq

/-- Extract the URL of a remote attribute value, skipping absent or
already-localised values. -/
def remoteUrl? : Option AttrVal → Option Url
  | some (.remote u) => some u
  | _ => none

/-- The reference targets of all `a` and `link` elements bearing `href`
(`soup.find_all(['a', 'link'], href=True)`), resolved against the page URL. -/
def linkRefs (soup : List HtmlElem) : List Url :=
  (soup.filter (fun e => e.tag = .a ∨ e.tag = .link)).filterMap (fun e => remoteUrl? e.href)

/-- Models `WebsiteDownloader.extract_links`: keep only references whose host
equals the downloader's domain, drop the fragment, and return them as a set
(modelled as a duplicate-free list). -/
def extract_links (domain : String) (soup : List HtmlElem) : List Url :=
  (((linkRefs soup).filter (fun u => u.host = domain)).map cleanUrl).dedup

/-- Models `WebsiteDownloader.extract_assets`: image/script/video/audio/source
`src`, stylesheet `href`, and inline-style `url(...)` references, resolved
against the page URL, with no domain filter, as a set (duplicate-free
list). -/
def extract_assets (soup : List HtmlElem) : List Url :=
  (((soup.filter (fun e => e.tag = .img)).filterMap (fun e => remoteUrl? e.src))
    ++ ((soup.filter (fun e => e.tag = .link ∧ e.relStylesheet)).filterMap
        (fun e => remoteUrl? e.href))
    ++ ((soup.filter (fun e => e.tag = .script)).filterMap (fun e => remoteUrl? e.src))
    ++ ((soup.filter (fun e => e.tag = .video ∨ e.tag = .audio ∨ e.tag = .source)).filterMap
        (fun e => remoteUrl? e.src))
    ++ (soup.flatMap (fun e => e.styleRefs.filterMap (fun v => remoteUrl? (some v))))).dedup

/-- The value `update_links_in_html` writes for a same-domain reference `u`
on the page whose local parent directory is `base`:
`os.path.relpath(self.get_local_path(full_url), base_path)`. -/
def rewriteTo (output_dir : List String) (base : List String) (u : Url) : AttrVal :=
  .localRef (relpathSegs (get_local_path output_dir u) base)

/-- One attribute update of the first kind (the `a`/`link`, `img` and
`script` loops of `update_links_in_html`): a remote same-domain reference is
replaced by the relative local path, anything else is left unchanged. -/
def updateVal (domain : String) (output_dir : List String) (base : List String) :
    AttrVal → AttrVal
  | .remote u => if u.host = domain then rewriteTo output_dir base u else .remote u
  | .localRef rel => .localRef rel

/-- RFC 3986 dot-segment removal for an absolute URL path given as segments. -/
def removeDotSegs (segs : List String) : List String :=
  segs.foldl
    (fun acc s =>
      if s = "." then acc
      else if s = ".." then acc.dropLast
      else acc ++ [s])
    []

/-- Models `urljoin(pageUrl, rel)` for a relative path `rel` (given as segments):
scheme and host come from the base, the path is the RFC 3986 merge of the
base path and `rel` with dot segments removed, query and fragment are empty.
(Re-parsing artifacts of special characters such as `#` or `?` inside
rewritten file names are outside this string model.) -/
def rejoin (pageUrl : Url) (rel : List String) : Url :=
  let baseSegs :=
    if pageUrl.path = "" then [""]
    else ((splitOnSlash pageUrl.path).dropLast)
  let merged := (baseSegs.drop 1) ++ rel
  { scheme := pageUrl.scheme, host := pageUrl.host,
    path := "/" ++ String.intercalate "/" (removeDotSegs merged),
    query := "", fragment := "" }

/-- One attribute update of the second kind: the stylesheet loop of
`update_links_in_html` runs after the `a`/`link` loop has already rewritten
the same `href` attribute, so it re-reads the attribute, re-joins it against
the page URL (`urljoin(original_url, href)`) and rewrites the result when its
host matches the domain. -/
def updateValAgain (domain : String) (output_dir : List String) (base : List String)
    (pageUrl : Url) : AttrVal → AttrVal
  | .remote u => if u.host = domain then rewriteTo output_dir base u else .remote u
  | .localRef rel =>
    let u := rejoin pageUrl rel
    if u.host = domain then rewriteTo output_dir base u else .localRef rel

/-- The effect of the four loops of `update_links_in_html` on one element,
in the loop order of the code: (1) `a`/`link` `href`, (2) `img` `src`,
(3) stylesheet `link` `href` (a second rewrite of the value written by
loop 1), (4) `script` `src`.  `video`/`audio`/`source` elements and inline
`style` attributes are never touched by the code.  The four loops act on
disjoint occasions of each element's attributes except for loops 1 and 3 on
stylesheet `link` elements, so per-element sequencing is faithful. -/
def updateElem (domain : String) (output_dir : List String) (base : List String)
    (pageUrl : Url) (e : HtmlElem) : HtmlElem :=
  let e :=
    if (e.tag = .a ∨ e.tag = .link) ∧ e.href.isSome then
      { e with href := e.href.map (updateVal domain output_dir base) }
    else e
  let e :=
    if e.tag = .img ∧ e.src.isSome then
      { e with src := e.src.map (updateVal domain output_dir base) }
    else e
  let e :=
    if e.tag = .link ∧ e.relStylesheet ∧ e.href.isSome then
      { e with href := e.href.map (updateValAgain domain output_dir base pageUrl) }
    else e
  if e.tag = .script ∧ e.src.isSome then
    { e with src := e.src.map (updateVal domain output_dir base) }
  else e

/-- Models `WebsiteDownloader.update_links_in_html`: rewrite the document in place;
`base` is `self.get_local_path(original_url).parent`. -/
def update_links_in_html (domain : String) (output_dir : List String)
    (pageUrl : Url) (soup : List HtmlElem) : List HtmlElem :=
  let base := (get_local_path output_dir pageUrl).dropLast
  soup.map (updateElem domain output_dir base pageUrl)

/-! ## The crawl engine

`download_website` drives a FIFO frontier.  The environment of one run —
the robots policy held by the single `RobotFileParser`, and the network
behind the single `requests.Session` — is modelled by `SiteModel`:
`fetchPage u = none` models `session.get`/`raise_for_status` raising
(transport error or non-2xx status) and `fetchPage u = some soup` a
successful fetch whose parsed document is `soup`; `assetOk` plays the same
role for the asset `GET` in `download_file`.  Each issued `session.get` is
recorded in `log`; each file written is recorded in `writes` (file contents
and the inter-request delay are not modelled). -/

/-- Whether a `session.get` was issued for a page (in `process_html_page`)
or for an asset (in `download_file`). -/
inductive FetchKind
  | page | asset
deriving DecidableEq

/-- The deterministic per-run environment. -/
structure SiteModel where
  robotsAllow : Url → Bool
  fetchPage : Url → Option (List HtmlElem)
  assetOk : Url → Bool

/-- The mutable crawl state: the pending FIFO `url_queue`, the sets
`downloaded_urls` (saved pages), `downloaded_files` (downloaded assets) and
`failed_urls` (modelled as lists inserted without duplication), plus the
observation trace: issued fetches and written files. -/
structure CrawlState where
  url_queue : List Url
  downloaded_urls : List Url
  downloaded_files : List Url
  failed_urls : List Url
  log : List (FetchKind × Url)
  writes : List (Url × List String)
deriving DecidableEq

/-- Insertion into a Python `set` (no duplicates). -/
def setInsert (u : Url) (l : List Url) : List Url :=
  if u ∈ l then l else l ++ [u]

/-- Models `WebsiteDownloader.download_file`: robots gate, then the GET; on success
the content is written to `local_path`, on failure the URL joins
`failed_urls`.  Returns the function's boolean result and the new state. -/
def download_file (site : SiteModel) (u : Url) (local_path : List String)
    (st : CrawlState) : Bool × CrawlState :=
  if ¬ site.robotsAllow u then (false, st)
  else if site.assetOk u then
    (true, { st with log := st.log ++ [(.asset, u)],
                     writes := st.writes ++ [(u, local_path)] })
  else
    (false, { st with log := st.log ++ [(.asset, u)],
                      failed_urls := setInsert u st.failed_urls })

/-- One iteration of the link-queueing loop of `process_html_page`: a link
is appended to the frontier unless it is already saved or already queued. -/
def queueLink (st : CrawlState) (l : Url) : CrawlState :=
  if l ∉ st.downloaded_urls ∧ l ∉ st.url_queue then
    { st with url_queue := st.url_queue ++ [l] }
  else st

/-- The link-queueing loop of `process_html_page`. -/
def queueLinks (links : List Url) (st : CrawlState) : CrawlState :=
  match links with
  | [] => st
  | l :: rest => queueLinks rest (queueLink st l)

/-- One iteration of the asset-downloading loop of `process_html_page`: an
asset URL not yet in `downloaded_files` is handed to `download_file` with
its mapped local path (note: no domain check), and joins `downloaded_files`
when the download succeeded. -/
def downloadAsset (site : SiteModel) (output_dir : List String)
    (st : CrawlState) (a : Url) : CrawlState :=
  if a ∉ st.downloaded_files then
    let r := download_file site a (get_local_path output_dir a) st
    if r.1 then
      { r.2 with downloaded_files := setInsert a r.2.downloaded_files }
    else r.2
  else st

/-- The asset-downloading loop of `process_html_page`. -/
def downloadAssets (site : SiteModel) (output_dir : List String)
    (assets : List Url) (st : CrawlState) : CrawlState :=
  match assets with
  | [] => st
  | a :: rest => downloadAssets site output_dir rest (downloadAsset site output_dir st a)

/-- Models `WebsiteDownloader.process_html_page`: skip if already saved; robots
gate (skip without recording on disallow); GET the page (failure puts the
URL in `failed_urls`); queue the extracted same-domain links; download the
extracted assets; rewrite the links (`update_links_in_html`, which affects
only the written content) and save the page, marking the URL downloaded. -/
def process_html_page (site : SiteModel) (domain : String)
    (output_dir : List String) (u : Url) (st : CrawlState) : CrawlState :=
  if u ∈ st.downloaded_urls then st
  else if ¬ site.robotsAllow u then st
  else
    match site.fetchPage u with
    | none =>
      { st with log := st.log ++ [(.page, u)],
                failed_urls := setInsert u st.failed_urls }
    | some soup =>
      let st1 := { st with log := st.log ++ [(.page, u)] }
      let st2 := queueLinks (extract_links domain soup) st1
      let st3 := downloadAssets site output_dir (extract_assets soup) st2
      { st3 with writes := st3.writes ++ [(u, get_local_path output_dir u)],
                 downloaded_urls := setInsert u st3.downloaded_urls }

/-- One iteration of the `while self.url_queue` loop of `download_website`:
pop the head; skip it if already saved; otherwise process it. -/
def crawl_step (site : SiteModel) (domain : String) (output_dir : List String)
    (st : CrawlState) : CrawlState :=
  match st.url_queue with
  | [] => st
  | u :: rest =>
    let st' := { st with url_queue := rest }
    if u ∈ st'.downloaded_urls then st'
    else process_html_page site domain output_dir u st'

/-- Models `WebsiteDownloader.download_website`, fuelled: run the crawl loop for at
most `fuel` iterations (the concrete loop runs until the frontier empties;
every safety claim below is proved for every fuel, hence holds at any point
of the real loop, terminating or not). -/
def download_website (site : SiteModel) (domain : String)
    (output_dir : List String) : Nat → CrawlState → CrawlState
  | 0, st => st
  | fuel + 1, st =>
    match st.url_queue with
    | [] => st
    | _ :: _ =>
      download_website site domain output_dir fuel (crawl_step site domain output_dir st)

/-- The state `WebsiteDownloader.__init__` sets up: the frontier holds the
seed URL, every set is empty. -/
def initState (seed : Url) : CrawlState :=
  { url_queue := [seed], downloaded_urls := [], downloaded_files := [],
    failed_urls := [], log := [], writes := [] }

/-! ### Invariants used in the claims -/

/-- A URL the robots policy forbids leaves no trace: no fetch issued for it,
and it belongs neither to the downloaded-pages set nor to the
downloaded-assets set. -/
def UntouchedByGate (u : Url) (st : CrawlState) : Prop :=
  (∀ k : FetchKind, (k, u) ∉ st.log) ∧ u ∉ st.downloaded_urls ∧ u ∉ st.downloaded_files

/-- A URL whose page fetches succeed is page-fetched at most once, and as
soon as it has been page-fetched it is saved. -/
def PageFetchInv (u : Url) (st : CrawlState) : Prop :=
  st.log.count (.page, u) ≤ 1 ∧ (1 ≤ st.log.count (.page, u) → u ∈ st.downloaded_urls)

/-- A URL whose asset fetches succeed is asset-fetched at most once, and as
soon as it has been asset-fetched it is in the downloaded-assets set. -/
def AssetFetchInv (u : Url) (st : CrawlState) : Prop :=
  st.log.count (.asset, u) ≤ 1 ∧ (1 ≤ st.log.count (.asset, u) → u ∈ st.downloaded_files)

/-- The failed-URLs set holds exactly the URLs with a raising fetch: a page
GET that raised (`fetchPage = none`) or an asset GET that raised
(`assetOk = false`).  Robots-disallowed URLs are skipped before any GET and
are deliberately absent. -/
def FailedAccounted (site : SiteModel) (u : Url) (st : CrawlState) : Prop :=
  u ∈ st.failed_urls ↔
    ((.page, u) ∈ st.log ∧ site.fetchPage u = none) ∨
    ((.asset, u) ∈ st.log ∧ site.assetOk u = false)

/-- Domain containment: every frontier entry and every page fetch issued so
far has the crawl domain as its host. -/
def DomainInv (d : String) (st : CrawlState) : Prop :=
  (∀ x ∈ st.url_queue, x.host = d) ∧ (∀ v : Url, (.page, v) ∈ st.log → v.host = d)

/-! ## Concrete scenarios

Small concrete environments used to witness the theorems and to refute the
claims that fail on the code.  All pages live on host `"h"`. -/

/-- The seed URL `http://h/`. -/
def uRoot : Url := ⟨"http", "h", "/", "", ""⟩

/-- The URL `http://h/a`. -/
def uA : Url := ⟨"http", "h", "/a", "", ""⟩

/-- The URL `http://h/b`. -/
def uB : Url := ⟨"http", "h", "/b", "", ""⟩

/-- An off-domain image URL `http://x/pic.png`. -/
def uExt : Url := ⟨"http", "x", "/pic.png", "", ""⟩

/-- An off-domain page URL `http://x/page`. -/
def uExtPage : Url := ⟨"http", "x", "/page", "", ""⟩

/-- An anchor element pointing at `u`. -/
def anchorTo (u : Url) : HtmlElem :=
  { tag := .a, href := some (.remote u) }

/-- An image element pointing at `u`. -/
def imgOf (u : Url) : HtmlElem :=
  { tag := .img, src := some (.remote u) }

/-- A video element pointing at `u`. -/
def videoOf (u : Url) : HtmlElem :=
  { tag := .video, src := some (.remote u) }

/-- A stylesheet link element pointing at `u`. -/
def stylesheetTo (u : Url) : HtmlElem :=
  { tag := .link, relStylesheet := true, href := some (.remote u) }

/-- The URL `http://h/p`. -/
def uP : Url := ⟨"http", "h", "/p", "", ""⟩

/-- A stylesheet URL `http://h/ab.` whose mapped file name (`ab`, the
trailing dot stripped by sanitisation) differs from the mapping of the URL
its rewritten relative reference re-joins to (`http://h/ab`, mapped to
`ab.html`). -/
def uStyleDot : Url := ⟨"http", "h", "/ab.", "", ""⟩

/-- Scenario for C2/C5: the seed links to `/a` and `/b`; `/b` links to `/a`
again; fetching `/a` always fails.  After `/a` fails it is re-discovered on
`/b`, re-enters the frontier and is fetched a second time. -/
def siteRefetch : SiteModel :=
  { robotsAllow := fun _ => true,
    fetchPage := fun u =>
      if u = uRoot then some [anchorTo uA, anchorTo uB]
      else if u = uB then some [anchorTo uA]
      else none,
    assetOk := fun _ => true }

/-- Scenario for C6/C7: the seed page links to `/a`, to an off-domain page,
and embeds an off-domain image; the robots policy forbids `/b` (linked from
`/a`) and the image. -/
def siteGate : SiteModel :=
  { robotsAllow := fun u => ¬ (u = uB ∨ u = uExt),
    fetchPage := fun u =>
      if u = uRoot then some [anchorTo uA, anchorTo uExtPage, imgOf uExt]
      else if u = uA then some [anchorTo uB]
      else none,
    assetOk := fun _ => true }

/-- Scenario for C8: the robots policy forbids everything, so the seed is
dequeued, gated off, and the run ends with nothing fetched — and nothing in
`failed_urls`. -/
def siteAllDisallowed : SiteModel :=
  { robotsAllow := fun _ => false,
    fetchPage := fun _ => none,
    assetOk := fun _ => true }

/-- Scenario for C10: the seed page embeds only the off-domain image. -/
def siteOffDomainAsset : SiteModel :=
  { robotsAllow := fun _ => true,
    fetchPage := fun u => if u = uRoot then some [imgOf uExt] else none,
    assetOk := fun _ => true }

/-! ## Lemmas about the crawl state primitives -/

lemma mem_setInsert {x u : Url} {l : List Url} : x ∈ setInsert u l ↔ x ∈ l ∨ x = u := by
  unfold setInsert
  by_cases h : u ∈ l
  · simp only [if_pos h]
    constructor
    · exact Or.inl
    · rintro (hx | rfl)
      · exact hx
      · exact h
  · simp [if_neg h]

lemma mem_setInsert_self (u : Url) (l : List Url) : u ∈ setInsert u l :=
  mem_setInsert.mpr (Or.inr rfl)

lemma mem_setInsert_of_mem {x : Url} (u : Url) {l : List Url} (h : x ∈ l) :
    x ∈ setInsert u l :=
  mem_setInsert.mpr (Or.inl h)

/-- The step `queueLink` changes only the frontier. -/
lemma queueLink_fields (st : CrawlState) (l : Url) :
    (queueLink st l).downloaded_urls = st.downloaded_urls ∧
    (queueLink st l).downloaded_files = st.downloaded_files ∧
    (queueLink st l).failed_urls = st.failed_urls ∧
    (queueLink st l).log = st.log ∧
    (queueLink st l).writes = st.writes := by
  unfold queueLink
  by_cases h : l ∉ st.downloaded_urls ∧ l ∉ st.url_queue <;> simp [h]

/-- The loop `queueLinks` changes only the frontier. -/
lemma queueLinks_fields (ls : List Url) (st : CrawlState) :
    (queueLinks ls st).downloaded_urls = st.downloaded_urls ∧
    (queueLinks ls st).downloaded_files = st.downloaded_files ∧
    (queueLinks ls st).failed_urls = st.failed_urls ∧
    (queueLinks ls st).log = st.log ∧
    (queueLinks ls st).writes = st.writes := by
  induction ls generalizing st with
  | nil => simp [queueLinks]
  | cons l t ih =>
    have h1 := ih (queueLink st l)
    have h2 := queueLink_fields st l
    simp only [queueLinks]
    exact ⟨h1.1.trans h2.1, h1.2.1.trans h2.2.1, h1.2.2.1.trans h2.2.2.1,
      h1.2.2.2.1.trans h2.2.2.2.1, h1.2.2.2.2.trans h2.2.2.2.2⟩

/-- The frontier only grows across `queueLinks`. -/
lemma mem_queueLinks_of_mem {x : Url} (ls : List Url) (st : CrawlState)
    (h : x ∈ st.url_queue) : x ∈ (queueLinks ls st).url_queue := by
  induction ls generalizing st with
  | nil => exact h
  | cons l t ih =>
    refine ih (queueLink st l) ?_
    unfold queueLink
    by_cases hc : l ∉ st.downloaded_urls ∧ l ∉ st.url_queue <;> simp [hc, h]

/-- Everything in the frontier after `queueLinks` was already queued or is
one of the processed links. -/
lemma mem_queueLinks_cases {x : Url} (ls : List Url) (st : CrawlState)
    (h : x ∈ (queueLinks ls st).url_queue) : x ∈ st.url_queue ∨ x ∈ ls := by
  induction ls generalizing st with
  | nil => exact Or.inl h
  | cons l t ih =>
    rcases ih (queueLink st l) h with hq | ht
    · unfold queueLink at hq
      by_cases hc : l ∉ st.downloaded_urls ∧ l ∉ st.url_queue
      · simp only [if_pos hc] at hq
        rcases List.mem_append.mp hq with hq' | hq'
        · exact Or.inl hq'
        · simp only [List.mem_singleton] at hq'
          exact Or.inr (hq' ▸ List.mem_cons_self l t)
      · exact Or.inl (by simpa [if_neg hc] using hq)
    · exact Or.inr (List.mem_cons_of_mem l ht)

/-- The step `queueLink` keeps every already-queued URL queued. -/
lemma mem_queueLink_of_mem {x : Url} (st : CrawlState) (l : Url)
    (h : x ∈ st.url_queue) : x ∈ (queueLink st l).url_queue := by
  unfold queueLink
  by_cases hc : l ∉ st.downloaded_urls ∧ l ∉ st.url_queue <;> simp [hc, h]

/-- Every processed link ends up queued or was already saved. -/
lemma queueLinks_complete {x : Url} (ls : List Url) (st : CrawlState)
    (h : x ∈ ls) : x ∈ (queueLinks ls st).url_queue ∨ x ∈ st.downloaded_urls := by
  induction ls generalizing st with
  | nil => cases h
  | cons l t ih =>
    rcases List.mem_cons.mp h with rfl | ht
    · by_cases hd : x ∈ st.downloaded_urls
      · exact Or.inr hd
      · refine Or.inl (mem_queueLinks_of_mem t _ ?_)
        by_cases hq : x ∈ st.url_queue
        · exact mem_queueLink_of_mem st x hq
        · simp [queueLink, hd, hq]
    · rcases ih (queueLink st l) ht with h' | h'
      · exact Or.inl h'
      · exact Or.inr ((queueLink_fields st l).1 ▸ h')

/-- A saved URL is never appended by the queueing loop: its queue
multiplicity is unchanged. -/
lemma queueLinks_count_of_downloaded {u : Url} (ls : List Url) (st : CrawlState)
    (h : u ∈ st.downloaded_urls) :
    (queueLinks ls st).url_queue.count u = st.url_queue.count u := by
  induction ls generalizing st with
  | nil => rfl
  | cons l t ih =>
    have hd : u ∈ (queueLink st l).downloaded_urls := (queueLink_fields st l).1 ▸ h
    have hcount : (queueLink st l).url_queue.count u = st.url_queue.count u := by
      unfold queueLink
      by_cases hc : l ∉ st.downloaded_urls ∧ l ∉ st.url_queue
      · have hlu : l ≠ u := fun he => hc.1 (he ▸ h)
        simp [hc, List.count_append, List.count_singleton', hlu]
      · simp [hc]
    simpa only [queueLinks, hcount] using ih (queueLink st l) hd

/-- The step `downloadAsset` changes neither the frontier nor the saved-pages set. -/
lemma downloadAsset_fields (site : SiteModel) (out : List String)
    (st : CrawlState) (a : Url) :
    (downloadAsset site out st a).url_queue = st.url_queue ∧
    (downloadAsset site out st a).downloaded_urls = st.downloaded_urls := by
  unfold downloadAsset download_file
  by_cases hf : a ∉ st.downloaded_files <;>
    by_cases hr : site.robotsAllow a <;>
      by_cases ho : site.assetOk a <;> simp [hf, hr, ho]

/-- The loop `downloadAssets` changes neither the frontier nor the saved-pages set. -/
lemma downloadAssets_fields (site : SiteModel) (out : List String)
    (as : List Url) (st : CrawlState) :
    (downloadAssets site out as st).url_queue = st.url_queue ∧
    (downloadAssets site out as st).downloaded_urls = st.downloaded_urls := by
  induction as generalizing st with
  | nil => exact ⟨rfl, rfl⟩
  | cons a t ih =>
    have h1 := ih (downloadAsset site out st a)
    have h2 := downloadAsset_fields site out st a
    exact ⟨h1.1.trans h2.1, h1.2.trans h2.2⟩

/-- The log, the writes, the asset set and the failed set only grow across
one asset-loop iteration. -/
lemma downloadAsset_mono (site : SiteModel) (out : List String)
    (st : CrawlState) (a : Url) :
    st.log ⊆ (downloadAsset site out st a).log ∧
    st.writes ⊆ (downloadAsset site out st a).writes ∧
    st.downloaded_files ⊆ (downloadAsset site out st a).downloaded_files ∧
    st.failed_urls ⊆ (downloadAsset site out st a).failed_urls := by
  unfold downloadAsset download_file
  by_cases hf : a ∉ st.downloaded_files <;>
    by_cases hr : site.robotsAllow a <;>
      by_cases ho : site.assetOk a <;>
        simp [hf, hr, ho, List.subset_append_left] <;>
          intro x hx <;> exact mem_setInsert_of_mem _ hx

/-- The log, the writes, the asset set and the failed set only grow across
the asset loop. -/
lemma downloadAssets_mono (site : SiteModel) (out : List String)
    (as : List Url) (st : CrawlState) :
    st.log ⊆ (downloadAssets site out as st).log ∧
    st.writes ⊆ (downloadAssets site out as st).writes ∧
    st.downloaded_files ⊆ (downloadAssets site out as st).downloaded_files ∧
    st.failed_urls ⊆ (downloadAssets site out as st).failed_urls := by
  induction as generalizing st with
  | nil => exact ⟨fun _ h => h, fun _ h => h, fun _ h => h, fun _ h => h⟩
  | cons a t ih =>
    have h1 := downloadAsset_mono site out st a
    have h2 := ih (downloadAsset site out st a)
    exact ⟨h1.1.trans h2.1, h1.2.1.trans h2.2.1, h1.2.2.1.trans h2.2.2.1,
      h1.2.2.2.trans h2.2.2.2⟩

/-- One asset-loop iteration adds at most the asset fetch event for its own
URL to the log. -/
lemma downloadAsset_log_cases (site : SiteModel) (out : List String)
    (st : CrawlState) (a : Url) {e : FetchKind × Url}
    (h : e ∈ (downloadAsset site out st a).log) : e ∈ st.log ∨ e = (.asset, a) := by
  revert h
  unfold downloadAsset download_file
  by_cases hf : a ∉ st.downloaded_files <;>
    by_cases hr : site.robotsAllow a <;>
      by_cases ho : site.assetOk a <;>
        simp [hf, hr, ho, List.mem_append] <;> tauto

/-- The asset loop adds only asset fetch events to the log. -/
lemma downloadAssets_log_cases {e : FetchKind × Url} (site : SiteModel)
    (out : List String) (as : List Url) (st : CrawlState)
    (h : e ∈ (downloadAssets site out as st).log) :
    e ∈ st.log ∨ ∃ a ∈ as, e = (.asset, a) := by
  induction as generalizing st with
  | nil => exact Or.inl h
  | cons a t ih =>
    rcases ih (downloadAsset site out st a) h with h' | ⟨b, hb, he⟩
    · rcases downloadAsset_log_cases site out st a h' with h'' | rfl
      · exact Or.inl h''
      · exact Or.inr ⟨a, List.mem_cons_self a t, rfl⟩
    · exact Or.inr ⟨b, List.mem_cons_of_mem a hb, he⟩

/-- The asset loop leaves no trace of a robots-disallowed URL. -/
lemma downloadAsset_gate {site : SiteModel} {u : Url} (out : List String)
    (st : CrawlState) (a : Url) (hr : site.robotsAllow u = false) :
    ((∀ k : FetchKind, (k, u) ∉ st.log) →
      ∀ k : FetchKind, (k, u) ∉ (downloadAsset site out st a).log) ∧
    (u ∉ st.downloaded_files → u ∉ (downloadAsset site out st a).downloaded_files) := by
  by_cases hau : a = u
  · subst hau
    unfold downloadAsset download_file
    simp [hr]
  · constructor
    · intro hlog k
      intro hmem
      rcases downloadAsset_log_cases site out st a hmem with h' | h'
      · exact hlog k h'
      · exact hau (by injection h' with h1 h2; exact h2.symm)
    · intro hfiles hmem
      revert hmem
      unfold downloadAsset download_file
      by_cases hf : a ∉ st.downloaded_files <;>
        by_cases hra : site.robotsAllow a <;>
          by_cases ho : site.assetOk a <;>
            simp [hf, hra, ho, mem_setInsert] <;> tauto

lemma downloadAssets_gate {site : SiteModel} {u : Url} (out : List String)
    (as : List Url) (st : CrawlState) (hr : site.robotsAllow u = false) :
    ((∀ k : FetchKind, (k, u) ∉ st.log) →
      ∀ k : FetchKind, (k, u) ∉ (downloadAssets site out as st).log) ∧
    (u ∉ st.downloaded_files → u ∉ (downloadAssets site out as st).downloaded_files) := by
  induction as generalizing st with
  | nil => exact ⟨fun h => h, fun h => h⟩
  | cons a t ih =>
    have h1 := @downloadAsset_gate site u out st a hr
    have h2 := ih (downloadAsset site out st a)
    exact ⟨fun h => h2.1 (h1.1 h), fun h => h2.2 (h1.2 h)⟩

/-- The asset loop never adds page fetch events. -/
lemma downloadAsset_count_page (site : SiteModel) (out : List String)
    (st : CrawlState) (a u : Url) :
    (downloadAsset site out st a).log.count (.page, u) = st.log.count (.page, u) := by
  unfold downloadAsset download_file
  by_cases hf : a ∉ st.downloaded_files <;>
    by_cases hr : site.robotsAllow a <;>
      by_cases ho : site.assetOk a <;>
        simp [hf, hr, ho, List.count_append]

lemma downloadAssets_count_page (site : SiteModel) (out : List String)
    (as : List Url) (st : CrawlState) (u : Url) :
    (downloadAssets site out as st).log.count (.page, u) = st.log.count (.page, u) := by
  induction as generalizing st with
  | nil => rfl
  | cons a t ih =>
    exact (ih (downloadAsset site out st a)).trans (downloadAsset_count_page site out st a u)

/-- One asset-loop iteration preserves the at-most-one-successful-asset-fetch
invariant for a URL whose robots gate and asset GET succeed. -/
lemma downloadAsset_assetInv {site : SiteModel} {u : Url} (out : List String)
    (st : CrawlState) (a : Url) (hr : site.robotsAllow u = true)
    (ho : site.assetOk u = true) (h : AssetFetchInv u st) :
    AssetFetchInv u (downloadAsset site out st a) := by
  by_cases hau : a = u
  · subst hau
    unfold downloadAsset download_file
    by_cases hf : a ∉ st.downloaded_files
    · have h0 : st.log.count (.asset, a) = 0 := by
        rcases Nat.eq_zero_or_pos (st.log.count (.asset, a)) with h0 | h0
        · exact h0
        · exact absurd (h.2 h0) hf
      simp only [hf, hr, ho, if_pos, if_neg, Bool.not_true, if_true]
      constructor
      · simp [List.count_append, h0]
      · intro _
        exact mem_setInsert_self a _
    · simpa [hf] using h
  · have hcount : (downloadAsset site out st a).log.count (.asset, u) =
        st.log.count (.asset, u) := by
      have hz : List.count ((FetchKind.asset, u) : FetchKind × Url)
          [(FetchKind.asset, a)] = 0 := by
        refine List.count_eq_zero.mpr ?_
        simp only [List.mem_singleton, Prod.mk.injEq, true_and]
        exact Ne.symm hau
      unfold downloadAsset download_file
      by_cases hf : a ∉ st.downloaded_files <;>
        by_cases hra : site.robotsAllow a <;>
          by_cases hoa : site.assetOk a <;>
            simp [hf, hra, hoa, List.count_append, hz]
    refine ⟨hcount ▸ h.1, fun h1 => ?_⟩
    exact (downloadAsset_mono site out st a).2.2.1 (h.2 (hcount ▸ h1))

lemma downloadAssets_assetInv {site : SiteModel} {u : Url} (out : List String)
    (as : List Url) (st : CrawlState) (hr : site.robotsAllow u = true)
    (ho : site.assetOk u = true) (h : AssetFetchInv u st) :
    AssetFetchInv u (downloadAssets site out as st) := by
  induction as generalizing st with
  | nil => exact h
  | cons a t ih => exact ih _ (downloadAsset_assetInv out st a hr ho h)

/-- One asset-loop iteration preserves the failed-set accounting. -/
lemma downloadAsset_failedInv {site : SiteModel} {u : Url} (out : List String)
    (st : CrawlState) (a : Url) (h : FailedAccounted site u st) :
    FailedAccounted site u (downloadAsset site out st a) := by
  unfold FailedAccounted at h ⊢
  by_cases hau : a = u
  · subst hau
    unfold downloadAsset download_file
    by_cases hf : a ∉ st.downloaded_files <;>
      by_cases hra : site.robotsAllow a <;>
        by_cases hoa : site.assetOk a <;>
          simp only [hf, hra, hoa, Bool.not_true, Bool.not_false, if_true, if_false,
            if_pos, if_neg, not_false_iff, not_true] <;>
      simp_all [mem_setInsert, List.mem_append]
  · have hne : ((FetchKind.asset, u) : FetchKind × Url) ≠ (.asset, a) := by
      intro h'
      injection h' with _ h2
      exact hau h2.symm
    have hne2 : ((FetchKind.page, u) : FetchKind × Url) ≠ (.asset, a) := by
      intro h'
      injection h' with h1 _
      cases h1
    unfold downloadAsset download_file
    by_cases hf : a ∉ st.downloaded_files <;>
      by_cases hra : site.robotsAllow a <;>
        by_cases hoa : site.assetOk a <;>
          simp only [hf, hra, hoa, Bool.not_true, Bool.not_false, if_true, if_false,
            if_pos, if_neg, not_false_iff, not_true] <;>
      simp_all [mem_setInsert, List.mem_append, hne, hne2, Ne.symm hau]

lemma downloadAssets_failedInv {site : SiteModel} {u : Url} (out : List String)
    (as : List Url) (st : CrawlState) (h : FailedAccounted site u st) :
    FailedAccounted site u (downloadAssets site out as st) := by
  induction as generalizing st with
  | nil => exact h
  | cons a t ih => exact ih _ (downloadAsset_failedInv out st a h)

/-- The asset loop attempts every listed asset not already downloaded whose
robots gate passes — with no condition on the asset's host: the GET is
logged, and on success the content is written to the asset's mapped local
path and the asset joins `downloaded_files`. -/
lemma downloadAssets_attempt {site : SiteModel} (out : List String)
    {a : Url} (as : List Url) (st : CrawlState) (ha : a ∈ as)
    (hf : a ∉ st.downloaded_files) (hr : site.robotsAllow a = true) :
    (.asset, a) ∈ (downloadAssets site out as st).log ∧
    (site.assetOk a = true →
      (a, get_local_path out a) ∈ (downloadAssets site out as st).writes ∧
      a ∈ (downloadAssets site out as st).downloaded_files) := by
  induction as generalizing st with
  | nil => cases ha
  | cons b t ih =>
    by_cases hba : b = a
    · subst hba
      have hmono := downloadAssets_mono site out t (downloadAsset site out st b)
      by_cases ho : site.assetOk b
      · have hstep : (downloadAsset site out st b).log = st.log ++ [(.asset, b)] ∧
            (downloadAsset site out st b).writes =
              st.writes ++ [(b, get_local_path out b)] ∧
            (downloadAsset site out st b).downloaded_files =
              setInsert b st.downloaded_files := by
          unfold downloadAsset download_file
          simp [hf, hr, ho]
        refine ⟨hmono.1 ?_, fun _ => ⟨hmono.2.1 ?_, hmono.2.2.1 ?_⟩⟩
        · rw [hstep.1]
          simp
        · rw [hstep.2.1]
          simp
        · rw [hstep.2.2]
          exact mem_setInsert_self b _
      · have hstep : (downloadAsset site out st b).log = st.log ++ [(.asset, b)] := by
          unfold downloadAsset download_file
          simp [hf, hr, ho]
        refine ⟨hmono.1 ?_, fun hok => absurd hok (by simpa using ho)⟩
        rw [hstep]
        simp
    · have hat : a ∈ t := by
        rcases List.mem_cons.mp ha with h' | h'
        · exact absurd h'.symm hba
        · exact h'
      have hf' : a ∉ (downloadAsset site out st b).downloaded_files := by
        intro hmem
        revert hmem
        unfold downloadAsset download_file
        by_cases hfb : b ∉ st.downloaded_files <;>
          by_cases hrb : site.robotsAllow b <;>
            by_cases hob : site.assetOk b <;>
              simp [hfb, hrb, hob, mem_setInsert] <;> tauto
      exact ih (downloadAsset site out st b) hat hf'

/-! ### `process_html_page` preservation lemmas -/

/-- Processing any page leaves no trace of a robots-disallowed URL. -/
lemma process_gate {site : SiteModel} {u : Url} (d : String) (out : List String)
    (v : Url) (st : CrawlState) (hr : site.robotsAllow u = false)
    (h : UntouchedByGate u st) :
    UntouchedByGate u (process_html_page site d out v st) := by
  unfold process_html_page
  by_cases hd : v ∈ st.downloaded_urls
  · simpa [hd] using h
  · by_cases hrv : site.robotsAllow v
    · have hvu : v ≠ u := by
        intro he
        rw [he, hr] at hrv
        cases hrv
      cases hfp : site.fetchPage v with
      | none =>
        simp only [hd, hrv, hfp, if_neg, if_pos, not_true, not_false_iff, if_false,
          Bool.not_true, ite_not]
        refine ⟨fun k hk => ?_, h.2.1, h.2.2⟩
        rcases List.mem_append.mp hk with hk | hk
        · exact h.1 k hk
        · simp only [List.mem_singleton, Prod.mk.injEq] at hk
          exact hvu hk.2.symm
      | some soup =>
        simp only [hd, hrv, hfp, if_neg, if_pos, not_true, not_false_iff, if_false,
          Bool.not_true, ite_not]
        set st1 : CrawlState :=
          { st with log := st.log ++ [(.page, v)] } with hst1
        have h1 : UntouchedByGate u st1 := by
          refine ⟨fun k hk => ?_, h.2.1, h.2.2⟩
          rcases List.mem_append.mp hk with hk | hk
          · exact h.1 k hk
          · simp only [List.mem_singleton, Prod.mk.injEq] at hk
            exact hvu hk.2.symm
        set st2 := queueLinks (extract_links d soup) st1 with hst2
        have h2 : UntouchedByGate u st2 := by
          have hf := queueLinks_fields (extract_links d soup) st1
          exact ⟨fun k => hf.2.2.2.1 ▸ h1.1 k, hf.1 ▸ h1.2.1, hf.2.1 ▸ h1.2.2⟩
        set st3 := downloadAssets site out (extract_assets soup) st2 with hst3
        have h3 : UntouchedByGate u st3 := by
          have hg := downloadAssets_gate out (extract_assets soup) st2 hr
          refine ⟨fun k => (hg.1 (fun k' => h2.1 k')) k, ?_, hg.2 h2.2.2⟩
          exact (downloadAssets_fields site out (extract_assets soup) st2).2 ▸ h2.2.1
        refine ⟨h3.1, fun hmem => ?_, h3.2.2⟩
        rcases mem_setInsert.mp hmem with hmem | rfl
        · exact h3.2.1 hmem
        · exact hvu rfl
    · simpa [hd, hrv] using h

/-- Processing an already-saved URL does nothing. -/
lemma process_eq_of_downloaded {site : SiteModel} {d : String} {out : List String}
    {u : Url} {st : CrawlState} (hd : u ∈ st.downloaded_urls) :
    process_html_page site d out u st = st := by
  simp [process_html_page, hd]

/-- Processing a robots-disallowed URL does nothing. -/
lemma process_eq_of_robots {site : SiteModel} {d : String} {out : List String}
    {u : Url} {st : CrawlState} (hr : site.robotsAllow u = false) :
    process_html_page site d out u st = st := by
  by_cases hd : u ∈ st.downloaded_urls
  · simp [process_html_page, hd]
  · simp [process_html_page, hd, hr]

/-- Processing when the page GET raises: the URL joins
`failed_urls`. -/
lemma process_eq_of_fail {site : SiteModel} {d : String} {out : List String}
    {u : Url} {st : CrawlState} (hd : u ∉ st.downloaded_urls)
    (hr : site.robotsAllow u = true) (hfp : site.fetchPage u = none) :
    process_html_page site d out u st =
      { st with log := st.log ++ [(.page, u)],
                failed_urls := setInsert u st.failed_urls } := by
  simp [process_html_page, hd, hr, hfp]

/-- Processing when the page GET succeeds: log the fetch, queue the
links, download the assets, save the page. -/
lemma process_eq_of_some {site : SiteModel} {d : String} {out : List String}
    {u : Url} {st : CrawlState} {soup : List HtmlElem} (hd : u ∉ st.downloaded_urls)
    (hr : site.robotsAllow u = true) (hfp : site.fetchPage u = some soup) :
    process_html_page site d out u st =
      { downloadAssets site out (extract_assets soup)
          (queueLinks (extract_links d soup) { st with log := st.log ++ [(.page, u)] }) with
        writes := (downloadAssets site out (extract_assets soup)
            (queueLinks (extract_links d soup)
              { st with log := st.log ++ [(.page, u)] })).writes ++
          [(u, get_local_path out u)],
        downloaded_urls := setInsert u (downloadAssets site out (extract_assets soup)
            (queueLinks (extract_links d soup)
              { st with log := st.log ++ [(.page, u)] })).downloaded_urls } := by
  simp [process_html_page, hd, hr, hfp]

/-- Processing preserves the page-fetch-dedup invariant for a URL whose page
GET succeeds. -/
lemma process_pageInv {site : SiteModel} {u : Url} (d : String) (out : List String)
    (v : Url) (st : CrawlState) (hs : (site.fetchPage u).isSome)
    (h : PageFetchInv u st) : PageFetchInv u (process_html_page site d out v st) := by
  by_cases hd : v ∈ st.downloaded_urls
  · rw [process_eq_of_downloaded hd]
    exact h
  · by_cases hrv : site.robotsAllow v
    · cases hfp : site.fetchPage v with
      | none =>
        have hvu : v ≠ u := by
          intro he
          rw [he] at hfp
          rw [hfp] at hs
          simp at hs
        rw [process_eq_of_fail hd hrv hfp]
        have hz : List.count ((FetchKind.page, u) : FetchKind × Url) [(.page, v)] = 0 := by
          refine List.count_eq_zero.mpr ?_
          simp only [List.mem_singleton, Prod.mk.injEq, true_and]
          exact fun he => hvu he.symm
        exact ⟨by simpa [List.count_append, hz] using h.1,
          fun h1 => h.2 (by simpa [List.count_append, hz] using h1)⟩
      | some soup =>
        rw [process_eq_of_some hd hrv hfp]
        set st1 : CrawlState := { st with log := st.log ++ [(.page, v)] } with hst1
        set st2 := queueLinks (extract_links d soup) st1 with hst2
        set st3 := downloadAssets site out (extract_assets soup) st2 with hst3
        have hlog2 : st2.log = st1.log :=
          (queueLinks_fields (extract_links d soup) st1).2.2.2.1
        have hdl2 : st2.downloaded_urls = st.downloaded_urls :=
          (queueLinks_fields (extract_links d soup) st1).1
        have hcount3 : st3.log.count (.page, u) = st2.log.count (.page, u) :=
          downloadAssets_count_page site out (extract_assets soup) st2 u
        have hdl3 : st3.downloaded_urls = st2.downloaded_urls :=
          (downloadAssets_fields site out (extract_assets soup) st2).2
        by_cases hvu : v = u
        · subst hvu
          have h0 : st.log.count (.page, v) = 0 := by
            rcases Nat.eq_zero_or_pos (st.log.count (.page, v)) with h0 | h0
            · exact h0
            · exact absurd (h.2 h0) hd
          constructor
          · simp only [hcount3, hlog2, hst1, List.count_append, h0]
            simp
          · intro _
            exact mem_setInsert_self v _
        · have hz : List.count ((FetchKind.page, u) : FetchKind × Url) [(.page, v)] = 0 := by
            refine List.count_eq_zero.mpr ?_
            simp only [List.mem_singleton, Prod.mk.injEq, true_and]
            exact fun he => hvu he.symm
          have hc : st3.log.count (.page, u) = st.log.count (.page, u) := by
            rw [hcount3, hlog2, hst1]
            simp [List.count_append, hz]
          refine ⟨by simpa [hc] using h.1, fun h1 => ?_⟩
          refine mem_setInsert_of_mem v ?_
          rw [hdl3, hdl2]
          exact h.2 (by simpa [hc] using h1)
    · rw [process_eq_of_robots (by simpa using hrv)]
      exact h

/-- Processing preserves the asset-fetch-dedup invariant for a URL whose
robots gate and asset GET succeed. -/
lemma process_assetInv {site : SiteModel} {u : Url} (d : String) (out : List String)
    (v : Url) (st : CrawlState) (hr : site.robotsAllow u = true)
    (ho : site.assetOk u = true) (h : AssetFetchInv u st) :
    AssetFetchInv u (process_html_page site d out v st) := by
  by_cases hd : v ∈ st.downloaded_urls
  · rw [process_eq_of_downloaded hd]
    exact h
  · by_cases hrv : site.robotsAllow v
    · have hz : List.count ((FetchKind.asset, u) : FetchKind × Url) [(.page, v)] = 0 := by
        refine List.count_eq_zero.mpr ?_
        simp only [List.mem_singleton, Prod.mk.injEq]
        rintro ⟨h1, -⟩
        cases h1
      cases hfp : site.fetchPage v with
      | none =>
        rw [process_eq_of_fail hd hrv hfp]
        exact ⟨by simpa [List.count_append, hz] using h.1,
          fun h1 => h.2 (by simpa [List.count_append, hz] using h1)⟩
      | some soup =>
        rw [process_eq_of_some hd hrv hfp]
        set st1 : CrawlState := { st with log := st.log ++ [(.page, v)] } with hst1
        have h1 : AssetFetchInv u st1 := by
          constructor
          · simpa [hst1, List.count_append, hz] using h.1
          · intro hc
            exact h.2 (by simpa [hst1, List.count_append, hz] using hc)
        set st2 := queueLinks (extract_links d soup) st1 with hst2
        have h2 : AssetFetchInv u st2 := by
          have hf := queueLinks_fields (extract_links d soup) st1
          unfold AssetFetchInv at h1 ⊢
          rw [hf.2.2.2.1, hf.2.1]
          exact h1
        have h3 := downloadAssets_assetInv out (extract_assets soup) st2 hr ho h2
        exact ⟨h3.1, fun hc => h3.2 hc⟩
    · rw [process_eq_of_robots (by simpa using hrv)]
      exact h

/-- Processing preserves the failed-set accounting. -/
lemma process_failedInv {site : SiteModel} {u : Url} (d : String) (out : List String)
    (v : Url) (st : CrawlState) (h : FailedAccounted site u st) :
    FailedAccounted site u (process_html_page site d out v st) := by
  by_cases hd : v ∈ st.downloaded_urls
  · rw [process_eq_of_downloaded hd]
    exact h
  · by_cases hrv : site.robotsAllow v
    · cases hfp : site.fetchPage v with
      | none =>
        rw [process_eq_of_fail hd hrv hfp]
        unfold FailedAccounted at h ⊢
        by_cases hvu : v = u
        · subst hvu
          simp only [mem_setInsert, List.mem_append, List.mem_singleton]
          constructor
          · intro _
            exact Or.inl ⟨Or.inr trivial, hfp⟩
          · intro _
            exact Or.inr trivial
        · have hne : ((FetchKind.page, u) : FetchKind × Url) ≠ (.page, v) := by
            intro h'
            injection h' with _ h2
            exact hvu h2.symm
          have hne2 : ((FetchKind.asset, u) : FetchKind × Url) ≠ (.page, v) := by
            intro h'
            injection h' with h1 _
            cases h1
          simp only [mem_setInsert, List.mem_append, List.mem_singleton]
          constructor
          · rintro (hf | rfl)
            · rcases h.mp hf with ⟨hm, he⟩ | ⟨hm, he⟩
              · exact Or.inl ⟨Or.inl hm, he⟩
              · exact Or.inr ⟨Or.inl hm, he⟩
            · exact absurd rfl hvu
          · rintro (⟨hm | he, hmm⟩ | ⟨hm | he, hmm⟩)
            · exact Or.inl (h.mpr (Or.inl ⟨hm, hmm⟩))
            · exact absurd he hne
            · exact Or.inl (h.mpr (Or.inr ⟨hm, hmm⟩))
            · exact absurd he hne2
      | some soup =>
        rw [process_eq_of_some hd hrv hfp]
        set st1 : CrawlState := { st with log := st.log ++ [(.page, v)] } with hst1
        have h1 : FailedAccounted site u st1 := by
          unfold FailedAccounted at h ⊢
          by_cases hvu : v = u
          · subst hvu
            simp only [hst1, List.mem_append, List.mem_singleton]
            constructor
            · intro hf
              rcases h.mp hf with ⟨hm, he⟩ | ⟨hm, he⟩
              · exact Or.inl ⟨Or.inl hm, he⟩
              · exact Or.inr ⟨Or.inl hm, he⟩
            · rintro (⟨hm | he, hmm⟩ | ⟨hm | he, hmm⟩)
              · exact h.mpr (Or.inl ⟨hm, hmm⟩)
              · rw [hfp] at hmm
                cases hmm
              · exact h.mpr (Or.inr ⟨hm, hmm⟩)
              · injection he with h1' _
                cases h1'
          · have hne : ((FetchKind.page, u) : FetchKind × Url) ≠ (.page, v) := by
              intro h'
              injection h' with _ h2
              exact hvu h2.symm
            have hne2 : ((FetchKind.asset, u) : FetchKind × Url) ≠ (.page, v) := by
              intro h'
              injection h' with h1' _
              cases h1'
            simp only [hst1, List.mem_append, List.mem_singleton]
            constructor
            · intro hf
              rcases h.mp hf with ⟨hm, he⟩ | ⟨hm, he⟩
              · exact Or.inl ⟨Or.inl hm, he⟩
              · exact Or.inr ⟨Or.inl hm, he⟩
            · rintro (⟨hm | he, hmm⟩ | ⟨hm | he, hmm⟩)
              · exact h.mpr (Or.inl ⟨hm, hmm⟩)
              · exact absurd he hne
              · exact h.mpr (Or.inr ⟨hm, hmm⟩)
              · exact absurd he hne2
        set st2 := queueLinks (extract_links d soup) st1 with hst2
        have h2 : FailedAccounted site u st2 := by
          have hf := queueLinks_fields (extract_links d soup) st1
          unfold FailedAccounted at h1 ⊢
          rw [hf.2.2.1, hf.2.2.2.1]
          exact h1
        have h3 := downloadAssets_failedInv out (extract_assets soup) st2 h2
        unfold FailedAccounted at h3 ⊢
        exact h3
    · rw [process_eq_of_robots (by simpa using hrv)]
      exact h

/-- Every frontier entry after processing a page was already queued or is
the cleaned form of a same-domain reference of that page. -/
lemma process_queue_cases {site : SiteModel} {d : String} {out : List String}
    {u : Url} {st : CrawlState} {soup : List HtmlElem} {x : Url}
    (hfp : site.fetchPage u = some soup)
    (hx : x ∈ (process_html_page site d out u st).url_queue) :
    x ∈ st.url_queue ∨ ∃ r ∈ linkRefs soup, r.host = d ∧ x = cleanUrl r := by
  by_cases hd : u ∈ st.downloaded_urls
  · rw [process_eq_of_downloaded hd] at hx
    exact Or.inl hx
  · by_cases hrv : site.robotsAllow u
    · rw [process_eq_of_some hd hrv hfp] at hx
      set st1 : CrawlState := { st with log := st.log ++ [(.page, u)] } with hst1
      set st2 := queueLinks (extract_links d soup) st1 with hst2
      have hq3 : (downloadAssets site out (extract_assets soup) st2).url_queue =
          st2.url_queue :=
        (downloadAssets_fields site out (extract_assets soup) st2).1
      simp only [hq3] at hx
      rcases mem_queueLinks_cases (extract_links d soup) st1 hx with hq | hl
      · exact Or.inl hq
      · right
        unfold extract_links at hl
        rw [List.mem_dedup] at hl
        rcases List.mem_map.mp hl with ⟨r, hr, rfl⟩
        rcases List.mem_filter.mp hr with ⟨hr1, hr2⟩
        exact ⟨r, hr1, by simpa using hr2, rfl⟩
    · rw [process_eq_of_robots (by simpa using hrv)] at hx
      exact Or.inl hx

/-- Every same-domain reference of a successfully processed page ends up
queued or already saved. -/
lemma process_queue_complete {site : SiteModel} {d : String} {out : List String}
    {u : Url} {st : CrawlState} {soup : List HtmlElem} {r : Url}
    (hfp : site.fetchPage u = some soup) (hd : u ∉ st.downloaded_urls)
    (hrv : site.robotsAllow u = true) (hr : r ∈ linkRefs soup) (hh : r.host = d) :
    cleanUrl r ∈ (process_html_page site d out u st).url_queue ∨
    cleanUrl r ∈ (process_html_page site d out u st).downloaded_urls := by
  rw [process_eq_of_some hd hrv hfp]
  set st1 : CrawlState := { st with log := st.log ++ [(.page, u)] } with hst1
  have hmem : cleanUrl r ∈ extract_links d soup := by
    unfold extract_links
    rw [List.mem_dedup]
    exact List.mem_map.mpr ⟨r, List.mem_filter.mpr ⟨hr, by simpa using hh⟩, rfl⟩
  set st2 := queueLinks (extract_links d soup) st1 with hst2
  have hq3 : (downloadAssets site out (extract_assets soup) st2).url_queue =
      st2.url_queue :=
    (downloadAssets_fields site out (extract_assets soup) st2).1
  have hd3 : (downloadAssets site out (extract_assets soup) st2).downloaded_urls =
      st2.downloaded_urls :=
    (downloadAssets_fields site out (extract_assets soup) st2).2
  rcases queueLinks_complete (extract_links d soup) st1 hmem with hq | hdl
  · left
    simpa [hq3] using hq
  · right
    refine mem_setInsert_of_mem u ?_
    rw [hd3, (queueLinks_fields (extract_links d soup) st1).1]
    exact hdl

/-- Processing adds only the page's own page event and asset events to the
log. -/
lemma process_log_cases {site : SiteModel} {d : String} {out : List String}
    {u : Url} {st : CrawlState} {e : FetchKind × Url}
    (he : e ∈ (process_html_page site d out u st).log) :
    e ∈ st.log ∨ e = (.page, u) ∨ e.1 = .asset := by
  by_cases hd : u ∈ st.downloaded_urls
  · rw [process_eq_of_downloaded hd] at he
    exact Or.inl he
  · by_cases hrv : site.robotsAllow u
    · cases hfp : site.fetchPage u with
      | none =>
        rw [process_eq_of_fail hd hrv hfp] at he
        rcases List.mem_append.mp he with he | he
        · exact Or.inl he
        · exact Or.inr (Or.inl (List.mem_singleton.mp he))
      | some soup =>
        rw [process_eq_of_some hd hrv hfp] at he
        set st1 : CrawlState := { st with log := st.log ++ [(.page, u)] } with hst1
        set st2 := queueLinks (extract_links d soup) st1 with hst2
        rcases downloadAssets_log_cases site out (extract_assets soup) st2 he with h2 | ⟨a, _, rfl⟩
        · have hlog2 : st2.log = st1.log :=
            (queueLinks_fields (extract_links d soup) st1).2.2.2.1
          rw [hlog2] at h2
          rcases List.mem_append.mp h2 with h2 | h2
          · exact Or.inl h2
          · exact Or.inr (Or.inl (List.mem_singleton.mp h2))
        · exact Or.inr (Or.inr rfl)
    · rw [process_eq_of_robots (by simpa using hrv)] at he
      exact Or.inl he

/-- Processing a same-domain page preserves domain containment. -/
lemma process_domainInv {site : SiteModel} {d : String} (out : List String)
    (u : Url) (st : CrawlState) (hu : u.host = d) (h : DomainInv d st) :
    DomainInv d (process_html_page site d out u st) := by
  constructor
  · intro x hx
    cases hfp : site.fetchPage u with
    | none =>
      by_cases hd : u ∈ st.downloaded_urls
      · rw [process_eq_of_downloaded hd] at hx
        exact h.1 x hx
      · by_cases hrv : site.robotsAllow u
        · rw [process_eq_of_fail hd hrv hfp] at hx
          exact h.1 x hx
        · rw [process_eq_of_robots (by simpa using hrv)] at hx
          exact h.1 x hx
    | some soup =>
      rcases process_queue_cases hfp hx with hq | ⟨r, _, hrh, rfl⟩
      · exact h.1 x hq
      · exact hrh
  · intro v hv
    rcases process_log_cases hv with hl | he | hk
    · exact h.2 v hl
    · injection he with _ h2
      exact h2 ▸ hu
    · cases hk

/-- The asset loop inside `process_html_page` attempts every extracted asset
with no condition on its host (claim C10 at the processing level). -/
lemma process_asset_attempt {site : SiteModel} {d : String} {out : List String}
    {u a : Url} {st : CrawlState} {soup : List HtmlElem}
    (hfp : site.fetchPage u = some soup) (hd : u ∉ st.downloaded_urls)
    (hrv : site.robotsAllow u = true) (ha : a ∈ extract_assets soup)
    (haf : a ∉ st.downloaded_files) (har : site.robotsAllow a = true) :
    (.asset, a) ∈ (process_html_page site d out u st).log ∧
    (site.assetOk a = true →
      (a, get_local_path out a) ∈ (process_html_page site d out u st).writes ∧
      a ∈ (process_html_page site d out u st).downloaded_files) := by
  rw [process_eq_of_some hd hrv hfp]
  set st1 : CrawlState := { st with log := st.log ++ [(.page, u)] } with hst1
  set st2 := queueLinks (extract_links d soup) st1 with hst2
  have haf2 : a ∉ st2.downloaded_files := by
    rw [(queueLinks_fields (extract_links d soup) st1).2.1]
    exact haf
  have hmain := downloadAssets_attempt out (extract_assets soup) st2 ha haf2 har
  refine ⟨hmain.1, fun hok => ⟨?_, (hmain.2 hok).2⟩⟩
  exact List.mem_append.mpr (Or.inl (hmain.2 hok).1)

/-- Processing keeps the queue multiplicity of an already-saved URL. -/
lemma process_queue_count_downloaded {site : SiteModel} {d : String}
    {out : List String} {u v : Url} {st : CrawlState} (h : u ∈ st.downloaded_urls) :
    (process_html_page site d out v st).url_queue.count u = st.url_queue.count u := by
  by_cases hd : v ∈ st.downloaded_urls
  · rw [process_eq_of_downloaded hd]
  · by_cases hrv : site.robotsAllow v
    · cases hfp : site.fetchPage v with
      | none => rw [process_eq_of_fail hd hrv hfp]
      | some soup =>
        rw [process_eq_of_some hd hrv hfp]
        set st1 : CrawlState := { st with log := st.log ++ [(.page, v)] } with hst1
        set st2 := queueLinks (extract_links d soup) st1 with hst2
        have hq3 : (downloadAssets site out (extract_assets soup) st2).url_queue =
            st2.url_queue :=
          (downloadAssets_fields site out (extract_assets soup) st2).1
        simp only [hq3]
        exact queueLinks_count_of_downloaded (extract_links d soup) st1 h
    · rw [process_eq_of_robots (by simpa using hrv)]

/-- Processing never removes a URL from the saved set. -/
lemma process_downloaded_mono {site : SiteModel} {d : String} {out : List String}
    {u v : Url} {st : CrawlState} (h : u ∈ st.downloaded_urls) :
    u ∈ (process_html_page site d out v st).downloaded_urls := by
  by_cases hd : v ∈ st.downloaded_urls
  · rw [process_eq_of_downloaded hd]
    exact h
  · by_cases hrv : site.robotsAllow v
    · cases hfp : site.fetchPage v with
      | none =>
        rw [process_eq_of_fail hd hrv hfp]
        exact h
      | some soup =>
        rw [process_eq_of_some hd hrv hfp]
        set st1 : CrawlState := { st with log := st.log ++ [(.page, v)] } with hst1
        set st2 := queueLinks (extract_links d soup) st1 with hst2
        refine mem_setInsert_of_mem v ?_
        rw [(downloadAssets_fields site out (extract_assets soup) st2).2,
          (queueLinks_fields (extract_links d soup) st1).1]
        exact h
    · rw [process_eq_of_robots (by simpa using hrv)]
      exact h

/-! ### `crawl_step` and the fuelled loop -/

lemma crawl_step_eq_nil {site : SiteModel} {d : String} {out : List String}
    {st : CrawlState} (hq : st.url_queue = []) : crawl_step site d out st = st := by
  unfold crawl_step
  rw [hq]

lemma crawl_step_eq_cons {site : SiteModel} {d : String} {out : List String}
    {st : CrawlState} {u : Url} {rest : List Url} (hq : st.url_queue = u :: rest) :
    crawl_step site d out st =
      if u ∈ st.downloaded_urls then { st with url_queue := rest }
      else process_html_page site d out u { st with url_queue := rest } := by
  unfold crawl_step
  rw [hq]

/-- The fuelled loop preserves any property preserved by single steps. -/
lemma download_website_inv {site : SiteModel} {d : String} {out : List String}
    (P : CrawlState → Prop)
    (hstep : ∀ st, P st → P (crawl_step site d out st)) :
    ∀ (n : Nat) (st : CrawlState), P st → P (download_website site d out n st) := by
  intro n
  induction n with
  | zero => exact fun st h => h
  | succ n ih =>
    intro st h
    unfold download_website
    cases hq : st.url_queue with
    | nil => exact h
    | cons a t => exact ih _ (hstep st h)

lemma crawl_step_gate {site : SiteModel} {d : String} {out : List String}
    {u : Url} (st : CrawlState) (hr : site.robotsAllow u = false)
    (h : UntouchedByGate u st) : UntouchedByGate u (crawl_step site d out st) := by
  cases hq : st.url_queue with
  | nil =>
    rw [crawl_step_eq_nil hq]
    exact h
  | cons v rest =>
    rw [crawl_step_eq_cons hq]
    by_cases hv : v ∈ st.downloaded_urls
    · simp only [if_pos hv]
      exact h
    · simp only [if_neg hv]
      exact process_gate d out v { st with url_queue := rest } hr h

lemma crawl_step_pageInv {site : SiteModel} {d : String} {out : List String}
    {u : Url} (st : CrawlState) (hs : (site.fetchPage u).isSome)
    (h : PageFetchInv u st) : PageFetchInv u (crawl_step site d out st) := by
  cases hq : st.url_queue with
  | nil =>
    rw [crawl_step_eq_nil hq]
    exact h
  | cons v rest =>
    rw [crawl_step_eq_cons hq]
    by_cases hv : v ∈ st.downloaded_urls
    · simp only [if_pos hv]
      exact h
    · simp only [if_neg hv]
      exact process_pageInv d out v { st with url_queue := rest } hs h

lemma crawl_step_assetInv {site : SiteModel} {d : String} {out : List String}
    {u : Url} (st : CrawlState) (hr : site.robotsAllow u = true)
    (ho : site.assetOk u = true) (h : AssetFetchInv u st) :
    AssetFetchInv u (crawl_step site d out st) := by
  cases hq : st.url_queue with
  | nil =>
    rw [crawl_step_eq_nil hq]
    exact h
  | cons v rest =>
    rw [crawl_step_eq_cons hq]
    by_cases hv : v ∈ st.downloaded_urls
    · simp only [if_pos hv]
      exact h
    · simp only [if_neg hv]
      exact process_assetInv d out v { st with url_queue := rest } hr ho h

lemma crawl_step_failedInv {site : SiteModel} {d : String} {out : List String}
    {u : Url} (st : CrawlState) (h : FailedAccounted site u st) :
    FailedAccounted site u (crawl_step site d out st) := by
  cases hq : st.url_queue with
  | nil =>
    rw [crawl_step_eq_nil hq]
    exact h
  | cons v rest =>
    rw [crawl_step_eq_cons hq]
    by_cases hv : v ∈ st.downloaded_urls
    · simp only [if_pos hv]
      exact h
    · simp only [if_neg hv]
      exact process_failedInv d out v { st with url_queue := rest } h

lemma crawl_step_domainInv {site : SiteModel} {d : String} {out : List String}
    (st : CrawlState) (h : DomainInv d st) : DomainInv d (crawl_step site d out st) := by
  cases hq : st.url_queue with
  | nil =>
    rw [crawl_step_eq_nil hq]
    exact h
  | cons v rest =>
    rw [crawl_step_eq_cons hq]
    have h' : DomainInv d { st with url_queue := rest } :=
      ⟨fun x hx => h.1 x (hq ▸ List.mem_cons_of_mem v hx), h.2⟩
    by_cases hv : v ∈ st.downloaded_urls
    · simp only [if_pos hv]
      exact h'
    · simp only [if_neg hv]
      exact process_domainInv out v { st with url_queue := rest }
        (h.1 v (hq ▸ List.mem_cons_self v rest)) h'

/-- One crawl-loop iteration never increases the queue multiplicity of an
already-saved URL, and keeps it saved. -/
lemma crawl_step_count_downloaded {site : SiteModel} {d : String}
    {out : List String} {u : Url} (st : CrawlState) (h : u ∈ st.downloaded_urls) :
    (crawl_step site d out st).url_queue.count u ≤ st.url_queue.count u ∧
    u ∈ (crawl_step site d out st).downloaded_urls := by
  cases hq : st.url_queue with
  | nil =>
    rw [crawl_step_eq_nil hq, hq]
    exact ⟨le_refl _, h⟩
  | cons v rest =>
    rw [crawl_step_eq_cons hq]
    have hrest : rest.count u ≤ (v :: rest).count u := by
      rw [List.count_cons]
      exact Nat.le_add_right _ _
    by_cases hv : v ∈ st.downloaded_urls
    · simp only [if_pos hv]
      exact ⟨hrest, h⟩
    · simp only [if_neg hv]
      refine ⟨le_trans (le_of_eq ?_) hrest, process_downloaded_mono h⟩
      exact process_queue_count_downloaded h

/-! ### Relative-path resolution (claim C3) -/

lemma commonLen_le_left : ∀ (t s : List String), commonLen t s ≤ t.length := by
  intro t
  induction t with
  | nil => intro s; cases s <;> simp [commonLen]
  | cons a as ih =>
    intro s
    cases s with
    | nil => simp [commonLen]
    | cons b bs =>
      by_cases h : a = b
      · simp only [commonLen, if_pos h, List.length_cons]
        exact Nat.succ_le_succ (ih bs)
      · simp [commonLen, h]

lemma commonLen_le_right : ∀ (t s : List String), commonLen t s ≤ s.length := by
  intro t
  induction t with
  | nil => intro s; cases s <;> simp [commonLen]
  | cons a as ih =>
    intro s
    cases s with
    | nil => simp [commonLen]
    | cons b bs =>
      by_cases h : a = b
      · simp only [commonLen, if_pos h, List.length_cons]
        exact Nat.succ_le_succ (ih bs)
      · simp [commonLen, h]

lemma take_commonLen : ∀ (t s : List String),
    t.take (commonLen t s) = s.take (commonLen t s) := by
  intro t
  induction t with
  | nil => intro s; cases s <;> simp [commonLen]
  | cons a as ih =>
    intro s
    cases s with
    | nil => simp [commonLen]
    | cons b bs =>
      by_cases h : a = b
      · subst h
        have hc : commonLen (a :: as) (a :: bs) = commonLen as bs + 1 := by
          simp [commonLen]
        rw [hc, List.take_succ_cons, List.take_succ_cons, ih bs]
      · simp [commonLen, h]

lemma resolveSegs_cons_dotdot (base rest : List String) :
    resolveSegs base (".." :: rest) = resolveSegs base.dropLast rest := by
  unfold resolveSegs
  rw [List.foldl_cons]
  have h1 : (".." : String) ≠ "." := by decide
  rw [if_neg h1, if_pos rfl]

lemma resolveSegs_cons_dot (base rest : List String) :
    resolveSegs base ("." :: rest) = resolveSegs base rest := by
  unfold resolveSegs
  rw [List.foldl_cons]
  rw [if_pos rfl]

lemma resolveSegs_cons_other {s : String} (h1 : s ≠ ".") (h2 : s ≠ "..")
    (base rest : List String) :
    resolveSegs base (s :: rest) = resolveSegs (base ++ [s]) rest := by
  unfold resolveSegs
  rw [List.foldl_cons]
  rw [if_neg h1, if_neg h2]

lemma resolveSegs_append (base l₁ l₂ : List String) :
    resolveSegs base (l₁ ++ l₂) = resolveSegs (resolveSegs base l₁) l₂ := by
  unfold resolveSegs
  exact List.foldl_append _ _ _ _

lemma resolveSegs_clean : ∀ (rest : List String),
    (∀ s ∈ rest, s ≠ "." ∧ s ≠ "..") → ∀ (base : List String),
    resolveSegs base rest = base ++ rest := by
  intro rest
  induction rest with
  | nil => intro _ base; simp [resolveSegs]
  | cons s t ih =>
    intro h base
    have hs := h s (List.mem_cons_self s t)
    rw [resolveSegs_cons_other hs.1 hs.2]
    rw [ih (fun x hx => h x (List.mem_cons_of_mem s hx)) (base ++ [s])]
    simp

lemma dropLast_append_ne {α : Type} (l₁ : List α) :
    ∀ (l₂ : List α), l₂ ≠ [] → (l₁ ++ l₂).dropLast = l₁ ++ l₂.dropLast := by
  intro l₂ h
  cases l₂ with
  | nil => exact absurd rfl h
  | cons b t => rw [List.dropLast_append_cons]

lemma resolveSegs_ups : ∀ (n : Nat) (pre rest : List String), rest.length = n →
    resolveSegs (pre ++ rest) (List.replicate n "..") = pre := by
  intro n
  induction n with
  | zero =>
    intro pre rest h
    rw [List.length_eq_zero] at h
    subst h
    simp [resolveSegs]
  | succ n ih =>
    intro pre rest h
    have hne : rest ≠ [] := by
      intro he
      rw [he] at h
      cases h
    rw [List.replicate_succ, resolveSegs_cons_dotdot,
      dropLast_append_ne pre rest hne]
    refine ih pre rest.dropLast ?_
    rw [List.length_dropLast, h]
    simp

/-- Resolving `os.path.relpath(target, base)` against `base` recovers
`target`, provided `target` contains no `"."`/`".."` segments (true of every
local path the downloader produces). -/
lemma resolveSegs_relpathSegs (target base : List String)
    (ht : ∀ s ∈ target, s ≠ "." ∧ s ≠ "..") :
    resolveSegs base (relpathSegs target base) = target := by
  unfold relpathSegs
  by_cases h0 : List.replicate (base.length - commonLen target base) ".." ++
      target.drop (commonLen target base) = []
  · rw [if_pos h0]
    rcases List.append_eq_nil.mp h0 with ⟨h1, h2⟩
    have hb0 : base.length - commonLen target base = 0 := by
      have := congrArg List.length h1
      simpa using this
    have hbl : base.length = commonLen target base :=
      Nat.le_antisymm (Nat.sub_eq_zero_iff_le.mp hb0) (commonLen_le_right target base)
    have htl : target.length ≤ commonLen target base := by
      have := congrArg List.length h2
      simp only [List.length_drop, List.length_nil] at this
      exact Nat.sub_eq_zero_iff_le.mp this
    have htb : target = base := by
      have h3 : target = target.take (commonLen target base) :=
        (List.take_of_length_le htl).symm
      have h4 : base = base.take (commonLen target base) :=
        (List.take_of_length_le (le_of_eq hbl)).symm
      rw [h3, take_commonLen, ← h4]
    rw [resolveSegs_cons_dot]
    exact htb.symm
  · rw [if_neg h0]
    rw [resolveSegs_append]
    have hbase : resolveSegs base
        (List.replicate (base.length - commonLen target base) "..") =
        base.take (commonLen target base) := by
      have h2 := resolveSegs_ups ((base.drop (commonLen target base)).length)
        (base.take (commonLen target base)) (base.drop (commonLen target base)) rfl
      rw [List.take_append_drop] at h2
      rw [List.length_drop] at h2
      exact h2
    rw [hbase]
    rw [resolveSegs_clean _ (fun s hs => ht s (List.drop_subset _ _ hs)) _]
    rw [← take_commonLen target base]
    exact List.take_append_drop _ target

/-- The head surviving `dropWhile p` does not satisfy `p`. -/
lemma head_dropWhile_false {p : Char → Bool} :
    ∀ (l : List Char) {c : Char}, (l.dropWhile p).head? = some c → p c = false := by
  intro l
  induction l with
  | nil => intro c h; cases h
  | cons a t ih =>
    intro c h
    by_cases hp : p a
    · rw [List.dropWhile_cons_of_pos hp] at h
      exact ih h
    · rw [List.dropWhile_cons_of_neg hp] at h
      injection h with h'
      subst h'
      exact Bool.of_not_eq_true hp

/-- The head surviving `str.strip('. _')` is not a stripped character. -/
lemma head_stripDotsSpaces {l : List Char} {c : Char}
    (h : (stripDotsSpaces l).head? = some c) : isStripChar c = false := by
  set A := l.dropWhile isStripChar with hA
  have hsplit : A.reverse.takeWhile isStripChar ++ A.reverse.dropWhile isStripChar =
      A.reverse := List.takeWhile_append_dropWhile isStripChar A.reverse
  have hA2 : A = (A.reverse.dropWhile isStripChar).reverse ++
      (A.reverse.takeWhile isStripChar).reverse := by
    have := congrArg List.reverse hsplit
    rw [List.reverse_append, List.reverse_reverse] at this
    exact this.symm
  have hstr : stripDotsSpaces l = (A.reverse.dropWhile isStripChar).reverse := rfl
  rw [hstr] at h
  have hAhead : A.head? = some c := by
    rw [hA2]
    cases he : (A.reverse.dropWhile isStripChar).reverse with
    | nil =>
      rw [he] at h
      cases h
    | cons x xs =>
      rw [he] at h
      injection h with h'
      subst h'
      rw [List.cons_append]
      rfl
  exact head_dropWhile_false l hAhead

/-- The function `sanitize_filename` never returns `"."` or `".."`. -/
lemma sanitize_filename_ne_dots (s : String) :
    sanitize_filename s ≠ "." ∧ sanitize_filename s ≠ ".." := by
  set X := stripDotsSpaces (collapseUnderscores (s.toList.map replaceIllegal)) with hX
  have hhead : ∀ t : List Char, X.take 255 = '.' :: t → False := by
    intro t ht
    have hXhead : X.head? = some '.' := by
      cases hXc : X with
      | nil =>
        rw [hXc] at ht
        cases ht
      | cons c cs =>
        rw [hXc] at ht
        rw [List.take_succ_cons] at ht
        injection ht with h1 _
        subst h1
        rfl
    have := head_stripDotsSpaces hXhead
    simp [isStripChar] at this
  constructor
  · intro h
    have hdata : X.take 255 = ['.'] := congrArg String.data h
    exact hhead [] hdata
  · intro h
    have hdata : X.take 255 = ['.', '.'] := congrArg String.data h
    exact hhead ['.'] hdata

/-- No segment of a mapped local path is `"."` or `".."`. -/
lemma localSegs_ne_dots (u : Url) : ∀ s ∈ localSegs u, s ≠ "." ∧ s ≠ ".." := by
  intro s hs
  unfold localSegs localSegsOfDecoded at hs
  by_cases h0 : unquote u.path = "" ∨ unquote u.path = "/"
  · rw [if_pos h0] at hs
    rcases List.mem_singleton.mp hs with rfl
    constructor <;> decide
  · rw [if_neg h0] at hs
    unfold pathJoin at hs
    have hs' := List.mem_filter.mp hs
    have hfilter : s ≠ "" ∧ s ≠ "." := by simpa using hs'.2
    rcases List.mem_map.mp hs'.1 with ⟨x, _, rfl⟩
    exact ⟨hfilter.2, (sanitize_filename_ne_dots x).2⟩

/-- No segment of a full local path (output root included) is `"."` or
`".."`, provided the output root itself is free of them. -/
lemma get_local_path_ne_dots {output_dir : List String}
    (hout : ∀ s ∈ output_dir, s ≠ "." ∧ s ≠ "..") (u : Url) :
    ∀ s ∈ get_local_path output_dir u, s ≠ "." ∧ s ≠ ".." := by
  intro s hs
  rcases List.mem_append.mp hs with h | h
  · exact hout s h
  · exact localSegs_ne_dots u s h

/-! ## The claims -/

/-- C1 (counterexample): `get_local_path` does not follow the specified
algorithm verbatim.  At URL path `"//"` the code's `lstrip('/')` empties the
path and produces `out/html`, while the spec's "strip the leading slash"
leaves `"/"` and produces `out/index.html`; at path `"/a/."` the code's
extension test uses `pathlib` name semantics (final component `"a"`, no dot,
so `".html"` is appended) and produces `out/a/html`, while the spec's naive
final segment is `"."` (has a dot, nothing appended) and produces `out/a`. -/
theorem claim1_counterexample :
    (get_local_path ["out"] ⟨"http", "h", "//", "", ""⟩ ≠
      ["out"] ++ toLocalPath_spec ⟨"http", "h", "//", "", ""⟩) ∧
    (get_local_path ["out"] ⟨"http", "h", "/a/.", "", ""⟩ ≠
      ["out"] ++ toLocalPath_spec ⟨"http", "h", "/a/.", "", ""⟩) := by
  constructor <;> decide

/-- C1 (amended): for every URL, `get_local_path` computes the local path by
the specified algorithm amended in two points: all leading slashes are
stripped (not just one), and the no-extension test looks at the final path
component after discarding empty and `"."` components (pathlib `.name`
semantics) rather than at the last slash-separated piece.  The sanitisation
and joining steps are exactly as specified, and the function is total by
construction (it never raises). -/
theorem claim1_path_mapper_amended (output_dir : List String) (u : Url) :
    get_local_path output_dir u = output_dir ++ toLocalPath_amended u := rfl

/-- C9: the URL-to-path mapping depends only on the (percent-decoded) path
component and the output root: two URLs with equal decoded paths map to the
same local file even when scheme, host or query differ. -/
theorem claim9_path_only_mapping (u₁ u₂ : Url)
    (h : unquote u₁.path = unquote u₂.path) (output_dir : List String) :
    get_local_path output_dir u₁ = get_local_path output_dir u₂ := by
  unfold get_local_path localSegs
  rw [h]

/-- C9 witness: `http://h/p?q=1` and `https://other/p` collide on one local
file. -/
theorem claim9_witness :
    unquote (Url.mk "http" "h" "/p" "q=1" "").path =
      unquote (Url.mk "https" "other" "/p" "" "").path ∧
    get_local_path ["o"] (Url.mk "http" "h" "/p" "q=1" "") =
      get_local_path ["o"] (Url.mk "https" "other" "/p" "" "") :=
  ⟨rfl, claim9_path_only_mapping _ _ rfl ["o"]⟩

/-- The value one `rewriteTo` application writes for a resource `R` on page
`P` — `os.path.relpath(get_local_path(R), get_local_path(P).parent)` —
resolves, relative to the parent directory of `P`'s local path, to exactly
`R`'s local path.  (The `ValueError` fallback branch of the code is
unreachable on POSIX, where `os.path.relpath` is total, so the relative
form is always produced.)  The output root must not itself contain
`"."`/`".."` segments. -/
lemma rewriteTo_resolves (output_dir : List String) (pageUrl refUrl : Url)
    (hout : ∀ s ∈ output_dir, s ≠ "." ∧ s ≠ "..") (rel : List String)
    (hrw : rewriteTo output_dir ((get_local_path output_dir pageUrl).dropLast) refUrl =
      .localRef rel) :
    resolveSegs ((get_local_path output_dir pageUrl).dropLast) rel =
      get_local_path output_dir refUrl := by
  have hrel : rel = relpathSegs (get_local_path output_dir refUrl)
      ((get_local_path output_dir pageUrl).dropLast) := by
    unfold rewriteTo at hrw
    injection hrw with h
    exact h.symm
  rw [hrel]
  exact resolveSegs_relpathSegs _ _ (get_local_path_ne_dots hout refUrl)

/-- C5 (counterexample): a Failed URL is not terminal.  In the `siteRefetch`
scenario `/a` fails on its first fetch (entering `failed_urls`) and is then
re-discovered on `/b` and re-enqueued: after three loop iterations it is in
`failed_urls` and in the pending frontier at the same time. -/
theorem claim5_counterexample :
    uA ∈ (download_website siteRefetch "h" ["out"] 3 (initState uRoot)).failed_urls ∧
    uA ∈ (download_website siteRefetch "h" ["out"] 3 (initState uRoot)).url_queue := by
  constructor <;> decide

/-- C5 (amended): only the Saved state is terminal.  Once a URL is in the
downloaded-pages set, one crawl-loop iteration never increases its frontier
multiplicity (the enqueue guard checks the saved set), it stays saved, and
when it is at the head of the frontier it is dequeued and skipped with no
other state change.  Failed URLs enjoy no such protection: they may be
re-enqueued and re-processed (see the counterexample). -/
theorem claim5_saved_is_terminal (site : SiteModel) (d : String)
    (out : List String) (st : CrawlState) (u : Url) (h : u ∈ st.downloaded_urls) :
    (crawl_step site d out st).url_queue.count u ≤ st.url_queue.count u ∧
    u ∈ (crawl_step site d out st).downloaded_urls ∧
    (∀ rest : List Url, st.url_queue = u :: rest →
      crawl_step site d out st = { st with url_queue := rest }) := by
  refine ⟨(crawl_step_count_downloaded st h).1, (crawl_step_count_downloaded st h).2, ?_⟩
  intro rest hq
  rw [crawl_step_eq_cons hq, if_pos h]

/-- C5 witness: a saved URL at the head of the frontier is popped and
skipped. -/
theorem claim5_witness :
    uA ∈ (CrawlState.mk [uA] [uA] [] [] [] []).downloaded_urls ∧
    crawl_step siteRefetch "h" ["out"] (CrawlState.mk [uA] [uA] [] [] [] []) =
      CrawlState.mk [] [uA] [] [] [] [] := by
  refine ⟨by decide, ?_⟩
  exact (claim5_saved_is_terminal siteRefetch "h" ["out"]
    (CrawlState.mk [uA] [uA] [] [] [] []) uA (by decide)).2.2 [] rfl

/-- C7: a robots-disallowed URL is never fetched (no page or asset GET ever
appears in the log for it) and never enters the downloaded-pages or
downloaded-assets sets, over any number of crawl-loop iterations. -/
theorem claim7_robots_gate (site : SiteModel) (d : String) (out : List String)
    (seed : Url) (fuel : Nat) (u : Url) (hr : site.robotsAllow u = false) :
    (∀ k : FetchKind,
      (k, u) ∉ (download_website site d out fuel (initState seed)).log) ∧
    u ∉ (download_website site d out fuel (initState seed)).downloaded_urls ∧
    u ∉ (download_website site d out fuel (initState seed)).downloaded_files := by
  refine download_website_inv (UntouchedByGate u)
    (fun st h => crawl_step_gate st hr h) fuel (initState seed) ?_
  refine ⟨fun k hk => ?_, by simp [initState], by simp [initState]⟩
  simp [initState] at hk

/-- C7 witness: in the `siteGate` scenario `/b` is discovered on `/a`,
enqueued and dequeued, but the robots gate stops it: it is never fetched and
is in neither success set. -/
theorem claim7_witness :
    siteGate.robotsAllow uB = false ∧
    ((.page, uB) ∉ (download_website siteGate "h" ["out"] 4 (initState uRoot)).log ∧
      (.asset, uB) ∉ (download_website siteGate "h" ["out"] 4 (initState uRoot)).log) ∧
    uB ∉ (download_website siteGate "h" ["out"] 4 (initState uRoot)).downloaded_urls ∧
    uB ∉ (download_website siteGate "h" ["out"] 4 (initState uRoot)).downloaded_files := by
  have h := claim7_robots_gate siteGate "h" ["out"] uRoot 4 uB (by decide)
  exact ⟨by decide, ⟨h.1 .page, h.1 .asset⟩, h.2.1, h.2.2⟩

/-- C8 (counterexample): a robots-disallowed attempt is not recorded as
failed.  With a policy disallowing everything, the seed is dequeued, gated
off and dropped: the run ends (empty frontier) with the seed neither saved
nor — contrary to the claim — in `failed_urls`. -/
theorem claim8_counterexample :
    siteAllDisallowed.robotsAllow uRoot = false ∧
    (download_website siteAllDisallowed "h" ["out"] 2 (initState uRoot)).url_queue = [] ∧
    (download_website siteAllDisallowed "h" ["out"] 2 (initState uRoot)).failed_urls = [] ∧
    uRoot ∉ (download_website siteAllDisallowed "h" ["out"] 2
      (initState uRoot)).downloaded_urls := by
  refine ⟨by decide, by decide, by decide, by decide⟩

/-- C8 (amended): the failed-URLs set contains exactly the URLs whose issued
GET raised — a page fetch that failed (transport error or non-2xx) or an
asset fetch that failed.  Robots-disallowed URLs are skipped before any GET
and never enter the set. -/
theorem claim8_failed_accounting (site : SiteModel) (d : String)
    (out : List String) (seed : Url) (fuel : Nat) (u : Url) :
    u ∈ (download_website site d out fuel (initState seed)).failed_urls ↔
      ((.page, u) ∈ (download_website site d out fuel (initState seed)).log ∧
        site.fetchPage u = none) ∨
      ((.asset, u) ∈ (download_website site d out fuel (initState seed)).log ∧
        site.assetOk u = false) := by
  refine download_website_inv (FailedAccounted site u)
    (fun st h => crawl_step_failedInv st h) fuel (initState seed) ?_
  simp [FailedAccounted, initState]

/-- C2 (counterexample): a URL can be fetched twice in one run.  In the
`siteRefetch` scenario `/a` fails on its first page fetch, is rediscovered
on `/b`, re-enqueued, and page-fetched a second time: the four-iteration run
issues exactly two page GETs for `/a`. -/
theorem claim2_counterexample :
    (download_website siteRefetch "h" ["out"] 4 (initState uRoot)).log.count
      (.page, uA) = 2 := by
  decide

/-- C2 (amended): fetches are deduplicated per kind for URLs whose fetches
succeed.  If every page GET of `u` succeeds, at most one page GET is issued
for `u` in a run; if the robots gate and every asset GET of `u` succeed, at
most one asset GET is issued for `u`.  A URL whose fetch raised may be
re-fetched when rediscovered, and the same URL may be fetched once as a page
and once as an asset — only within each kind does deduplication hold. -/
theorem claim2_successful_fetch_once (site : SiteModel) (d : String)
    (out : List String) (seed : Url) (fuel : Nat) (u : Url)
    (hpage : (site.fetchPage u).isSome = true)
    (hrob : site.robotsAllow u = true) (hasset : site.assetOk u = true) :
    (download_website site d out fuel (initState seed)).log.count (.page, u) ≤ 1 ∧
    (download_website site d out fuel (initState seed)).log.count (.asset, u) ≤ 1 := by
  have hp : PageFetchInv u (download_website site d out fuel (initState seed)) := by
    refine download_website_inv (PageFetchInv u)
      (fun st h => crawl_step_pageInv st hpage h) fuel (initState seed) ?_
    simp [PageFetchInv, initState]
  have ha : AssetFetchInv u (download_website site d out fuel (initState seed)) := by
    refine download_website_inv (AssetFetchInv u)
      (fun st h => crawl_step_assetInv st hrob hasset h) fuel (initState seed) ?_
    simp [AssetFetchInv, initState]
  exact ⟨hp.1, ha.1⟩

/-- C2 witness: in the `siteOffDomainAsset` scenario the seed (all of whose
fetches succeed) is page-fetched exactly once and never asset-fetched. -/
theorem claim2_witness :
    (siteOffDomainAsset.fetchPage uRoot).isSome = true ∧
    siteOffDomainAsset.robotsAllow uRoot = true ∧
    siteOffDomainAsset.assetOk uRoot = true ∧
    (download_website siteOffDomainAsset "h" ["out"] 2 (initState uRoot)).log.count
      (.page, uRoot) ≤ 1 ∧
    (download_website siteOffDomainAsset "h" ["out"] 2 (initState uRoot)).log.count
      (.asset, uRoot) ≤ 1 := by
  have h := claim2_successful_fetch_once siteOffDomainAsset "h" ["out"] uRoot 2 uRoot
    (by decide) (by decide) (by decide)
  exact ⟨by decide, by decide, by decide, h.1, h.2⟩

/-- C6: domain containment.  (1) Everything the link-queueing pass adds to
the frontier is the cleaned form of an extracted reference whose host equals
the seed host; (2) every extracted reference with the seed host is queued
(or already saved) after the page is processed — dedup against
visited-or-queued is the only filter; (3) across a whole run from a seed on
the crawl domain, every frontier entry and every page GET issued has the
crawl domain as host, so off-domain references are never fetched as
pages. -/
theorem claim6_domain_containment (site : SiteModel) (d : String)
    (out : List String) :
    (∀ (st : CrawlState) (u : Url) (soup : List HtmlElem) (x : Url),
      site.fetchPage u = some soup →
      x ∈ (process_html_page site d out u st).url_queue →
      x ∈ st.url_queue ∨ ∃ r ∈ linkRefs soup, r.host = d ∧ x = cleanUrl r) ∧
    (∀ (st : CrawlState) (u : Url) (soup : List HtmlElem) (r : Url),
      site.fetchPage u = some soup → u ∉ st.downloaded_urls →
      site.robotsAllow u = true → r ∈ linkRefs soup → r.host = d →
      cleanUrl r ∈ (process_html_page site d out u st).url_queue ∨
      cleanUrl r ∈ (process_html_page site d out u st).downloaded_urls) ∧
    (∀ (seed : Url) (fuel : Nat), seed.host = d →
      (∀ x ∈ (download_website site d out fuel (initState seed)).url_queue,
        x.host = d) ∧
      (∀ v : Url,
        (.page, v) ∈ (download_website site d out fuel (initState seed)).log →
        v.host = d)) := by
  refine ⟨fun st u soup x hfp hx => process_queue_cases hfp hx,
    fun st u soup r hfp hd hrv hr hh => process_queue_complete hfp hd hrv hr hh,
    fun seed fuel hseed => ?_⟩
  refine download_website_inv (DomainInv d)
    (fun st h => crawl_step_domainInv st h) fuel (initState seed) ?_
  constructor
  · intro x hx
    have : x = seed := by simpa [initState] using hx
    exact this ▸ hseed
  · intro v hv
    simp [initState] at hv

/-- C6 witness: in the `siteGate` scenario the same-domain link `/b` of page
`/a` ends up queued or saved, and the frontier after two iterations contains
only hosts equal to `"h"` (concretely, `/b`). -/
theorem claim6_witness :
    (cleanUrl uB ∈ (process_html_page siteGate "h" ["out"] uA
        (initState uA)).url_queue ∨
      cleanUrl uB ∈ (process_html_page siteGate "h" ["out"] uA
        (initState uA)).downloaded_urls) ∧
    uB.host = "h" := by
  constructor
  · exact (claim6_domain_containment siteGate "h" ["out"]).2.1 (initState uA) uA
      [anchorTo uB] uB (by decide) (by decide) (by decide) (by decide) (by decide)
  · exact ((claim6_domain_containment siteGate "h" ["out"]).2.2 uRoot 2 rfl).1 uB
      (by decide)

/-- C10: the asset-download path has no same-domain check.  For every asset
reference extracted from a successfully fetched page — with no hypothesis on
the asset's host — if the asset is not already in the downloaded-assets set
and robots permits it, an asset GET is issued, and when that GET succeeds
the fetched content is written to the asset's mapped local path under the
output root and the asset joins the downloaded-assets set. -/
theorem claim10_assets_regardless_of_host (site : SiteModel) (d : String)
    (out : List String) (u a : Url) (st : CrawlState) (soup : List HtmlElem)
    (hfp : site.fetchPage u = some soup) (hd : u ∉ st.downloaded_urls)
    (hrv : site.robotsAllow u = true) (ha : a ∈ extract_assets soup)
    (haf : a ∉ st.downloaded_files) (har : site.robotsAllow a = true) :
    (.asset, a) ∈ (process_html_page site d out u st).log ∧
    (site.assetOk a = true →
      (a, get_local_path out a) ∈ (process_html_page site d out u st).writes ∧
      a ∈ (process_html_page site d out u st).downloaded_files) :=
  process_asset_attempt hfp hd hrv ha haf har

/-- C10 witness: the off-domain image `http://x/pic.png` (host `"x"`, not
the crawl domain `"h"`) is fetched and written under the output root. -/
theorem claim10_witness :
    uExt.host ≠ "h" ∧
    (.asset, uExt) ∈ (process_html_page siteOffDomainAsset "h" ["out"] uRoot
      (initState uRoot)).log ∧
    (uExt, get_local_path ["out"] uExt) ∈ (process_html_page siteOffDomainAsset "h"
      ["out"] uRoot (initState uRoot)).writes ∧
    uExt ∈ (process_html_page siteOffDomainAsset "h" ["out"] uRoot
      (initState uRoot)).downloaded_files := by
  have h := claim10_assets_regardless_of_host siteOffDomainAsset "h" ["out"] uRoot
    uExt (initState uRoot) [imgOf uExt] (by decide) (by decide) (by decide)
    (by decide) (by decide) (by decide)
  exact ⟨by decide, h.1, (h.2 (by decide)).1, (h.2 (by decide)).2⟩

/-! ### `update_links_in_html` coverage lemmas (claim C4) -/

/-- No rewriting pass ever touches an inline `style` attribute. -/
lemma updateElem_styleRefs (d : String) (out base : List String) (pU : Url)
    (e : HtmlElem) : (updateElem d out base pU e).styleRefs = e.styleRefs := by
  cases htag : e.tag <;>
    by_cases hh : e.href.isSome = true <;>
      by_cases hs : e.src.isSome = true <;>
        by_cases hrs : e.relStylesheet = true <;>
          simp [updateElem, htag, hh, hs, hrs]

/-- The `video`, `audio`, `source` and all other untracked elements pass through
the rewriting pass unchanged. -/
lemma updateElem_untouched {e : HtmlElem} (d : String) (out base : List String)
    (pU : Url)
    (h : e.tag = .video ∨ e.tag = .audio ∨ e.tag = .source ∨ e.tag = .other) :
    updateElem d out base pU e = e := by
  rcases h with h | h | h | h <;> simp [updateElem, h]

/-- Same-domain `href` on an anchor or plain link is rewritten to the
relative local path. -/
lemma updateElem_href_rewrites {e : HtmlElem} {u : Url} {d : String}
    (out base : List String) (pU : Url)
    (h : e.tag = .a ∨ (e.tag = .link ∧ e.relStylesheet = false))
    (hhref : e.href = some (.remote u)) (hu : u.host = d) :
    (updateElem d out base pU e).href = some (rewriteTo out base u) := by
  rcases h with h | ⟨h, hr⟩
  · simp [updateElem, h, hhref, updateVal, hu]
  · simp [updateElem, h, hr, hhref, updateVal, hu]

/-- Same-domain `src` on an image or script is rewritten to the relative
local path. -/
lemma updateElem_src_rewrites {e : HtmlElem} {u : Url} {d : String}
    (out base : List String) (pU : Url)
    (h : e.tag = .img ∨ e.tag = .script) (hsrc : e.src = some (.remote u))
    (hu : u.host = d) :
    (updateElem d out base pU e).src = some (rewriteTo out base u) := by
  rcases h with h | h <;>
    by_cases hh : e.href.isSome = true <;>
      simp [updateElem, h, hh, hsrc, updateVal, hu]

/-- A same-domain stylesheet `href` is rewritten (twice — the second pass
re-joins the relative value against the page URL), ending as some relative
local path. -/
lemma updateElem_stylesheet {e : HtmlElem} {u : Url} {d : String}
    (out base : List String) (pU : Url) (h : e.tag = .link)
    (hs : e.relStylesheet = true) (hhref : e.href = some (.remote u))
    (hu : u.host = d) :
    ∃ rel : List String,
      (updateElem d out base pU e).href = some (.localRef rel) := by
  by_cases h2 : (rejoin pU (relpathSegs (get_local_path out u) base)).host = d
  · refine ⟨relpathSegs (get_local_path out
      (rejoin pU (relpathSegs (get_local_path out u) base))) base, ?_⟩
    simp [updateElem, h, hs, hhref, updateVal, updateValAgain, hu, h2, rewriteTo]
  · refine ⟨relpathSegs (get_local_path out u) base, ?_⟩
    simp [updateElem, h, hs, hhref, updateVal, updateValAgain, hu, h2, rewriteTo]

/-- An off-domain `href` is left untouched by every pass. -/
lemma updateElem_offdomain_href {e : HtmlElem} {u : Url} {d : String}
    (out base : List String) (pU : Url) (hu : ¬ u.host = d)
    (hhref : e.href = some (.remote u)) :
    (updateElem d out base pU e).href = e.href := by
  cases htag : e.tag <;>
    by_cases hs : e.src.isSome = true <;>
      by_cases hrs : e.relStylesheet = true <;>
        simp [updateElem, htag, hs, hrs, hhref, updateVal, updateValAgain, hu]

/-- An off-domain `src` is left untouched by every pass. -/
lemma updateElem_offdomain_src {e : HtmlElem} {u : Url} {d : String}
    (out base : List String) (pU : Url) (hu : ¬ u.host = d)
    (hsrc : e.src = some (.remote u)) :
    (updateElem d out base pU e).src = e.src := by
  cases htag : e.tag <;>
    by_cases hh : e.href.isSome = true <;>
      by_cases hrs : e.relStylesheet = true <;>
        simp [updateElem, htag, hh, hrs, hsrc, updateVal, updateValAgain, hu]

/-- C4 (counterexample): the rewriting pass does not cover everything
extraction collects.  A same-domain `video` `src` and a same-domain
inline-style `url(...)` reference are both collected as assets (and hence
downloaded) but `update_links_in_html` leaves the document completely
unchanged — the references are not replaced by relative local paths. -/
theorem claim4_counterexample :
    uA ∈ extract_assets [videoOf uA] ∧ uA.host = "h" ∧
    update_links_in_html "h" ["out"] uRoot [videoOf uA] = [videoOf uA] ∧
    uB ∈ extract_assets [HtmlElem.mk .other false none none [.remote uB]] ∧
    update_links_in_html "h" ["out"] uRoot
        [HtmlElem.mk .other false none none [.remote uB]] =
      [HtmlElem.mk .other false none none [.remote uB]] := by
  refine ⟨by decide, by decide, by decide, by decide, by decide⟩

/-- C4 (amended): the rewriting pass replaces same-domain references with
paths relative to the page's LocalPath parent directory only for anchor and
link `href` and image and script `src` attributes (stylesheet `href`s are
additionally rewritten a second time from the re-joined URL, still ending as
a relative local path); off-domain `href`/`src` references are left
unchanged; and `video`/`audio`/`source` `src` attributes and inline-style
`url(...)` references are never rewritten at all, even though extraction
collects them. -/
theorem claim4_rewrite_coverage (d : String) (out : List String) (pU : Url)
    (soup : List HtmlElem) (e : HtmlElem) (he : e ∈ soup) :
    updateElem d out ((get_local_path out pU).dropLast) pU e ∈
      update_links_in_html d out pU soup ∧
    (updateElem d out ((get_local_path out pU).dropLast) pU e).styleRefs =
      e.styleRefs ∧
    ((e.tag = .video ∨ e.tag = .audio ∨ e.tag = .source ∨ e.tag = .other) →
      updateElem d out ((get_local_path out pU).dropLast) pU e = e) ∧
    (∀ u : Url, u.host = d →
      ((e.tag = .a ∨ (e.tag = .link ∧ e.relStylesheet = false)) →
        e.href = some (.remote u) →
        (updateElem d out ((get_local_path out pU).dropLast) pU e).href =
          some (rewriteTo out ((get_local_path out pU).dropLast) u)) ∧
      ((e.tag = .img ∨ e.tag = .script) → e.src = some (.remote u) →
        (updateElem d out ((get_local_path out pU).dropLast) pU e).src =
          some (rewriteTo out ((get_local_path out pU).dropLast) u)) ∧
      (e.tag = .link → e.relStylesheet = true → e.href = some (.remote u) →
        ∃ rel : List String,
          (updateElem d out ((get_local_path out pU).dropLast) pU e).href =
            some (.localRef rel))) ∧
    (∀ u : Url, ¬ u.host = d →
      (e.href = some (.remote u) →
        (updateElem d out ((get_local_path out pU).dropLast) pU e).href = e.href) ∧
      (e.src = some (.remote u) →
        (updateElem d out ((get_local_path out pU).dropLast) pU e).src = e.src)) := by
  refine ⟨List.mem_map_of_mem _ he,
    updateElem_styleRefs d out _ pU e,
    fun h => updateElem_untouched d out _ pU h,
    fun u hu => ⟨fun h hhref => updateElem_href_rewrites out _ pU h hhref hu,
      fun h hsrc => updateElem_src_rewrites out _ pU h hsrc hu,
      fun h hs hhref => updateElem_stylesheet out _ pU h hs hhref hu⟩,
    fun u hu => ⟨fun hhref => updateElem_offdomain_href out _ pU hu hhref,
      fun hsrc => updateElem_offdomain_src out _ pU hu hsrc⟩⟩

/-- C4 witness: on page `http://h/b`, a same-domain anchor to `http://h/a`
is rewritten to the relative path `a.html`, down to the concrete value. -/
theorem claim4_witness :
    anchorTo uA ∈ [anchorTo uA] ∧
    (updateElem "h" ["out"] ((get_local_path ["out"] uB).dropLast) uB
        (anchorTo uA)).href =
      some (rewriteTo ["out"] ((get_local_path ["out"] uB).dropLast) uA) ∧
    rewriteTo ["out"] ((get_local_path ["out"] uB).dropLast) uA =
      .localRef ["a.html"] := by
  refine ⟨by decide, ?_, by decide⟩
  exact (((claim4_rewrite_coverage "h" ["out"] uB [anchorTo uA] (anchorTo uA)
    (by decide)).2.2.2.1 uA (by decide)).1 (Or.inl (by decide)) (by decide))

/-- The second rewriting pass of a same-domain stylesheet `href`, on a page
whose host is the crawl domain, writes exactly the relative path of the
*re-joined* URL's local path: loop 3 of `update_links_in_html` re-reads the
value loop 1 wrote, re-joins it against the page URL and rewrites the
result. -/
lemma updateElem_stylesheet_value {e : HtmlElem} {u : Url} {d : String}
    (out base : List String) (pU : Url) (h : e.tag = .link)
    (hs : e.relStylesheet = true) (hhref : e.href = some (.remote u))
    (hu : u.host = d) (hpd : pU.host = d) :
    (updateElem d out base pU e).href =
      some (rewriteTo out base
        (rejoin pU (relpathSegs (get_local_path out u) base))) := by
  have h2 : (rejoin pU (relpathSegs (get_local_path out u) base)).host = d := by
    simp [rejoin, hpd]
  simp [updateElem, h, hs, hhref, updateVal, updateValAgain, hu, h2, rewriteTo]

/-- C3 (counterexample): the rewritten reference of a saved page does not
always resolve to the referenced resource's LocalPath.  The stylesheet
`http://h/ab.` on page `http://h/p` maps to `out/ab` (the trailing dot is
stripped by sanitisation) and is downloaded there, and loop 1 rewrites the
`href` to `ab`; but loop 3 re-joins `ab` against the page URL, giving
`http://h/ab`, which maps to `out/ab.html`, and rewrites the attribute a
second time to `ab.html`.  The saved reference therefore resolves to
`out/ab.html`, not to the resource's LocalPath `out/ab`. -/
theorem claim3_counterexample :
    uStyleDot.host = "h" ∧
    update_links_in_html "h" ["out"] uP [stylesheetTo uStyleDot] =
      [{ stylesheetTo uStyleDot with href := some (.localRef ["ab.html"]) }] ∧
    get_local_path ["out"] uStyleDot = ["out", "ab"] ∧
    resolveSegs ((get_local_path ["out"] uP).dropLast) ["ab.html"] ≠
      get_local_path ["out"] uStyleDot := by
  refine ⟨by decide, by decide, by decide, by decide⟩

/-- C3 (amended): rewrite correctness holds per rewriting pass, not end to
end for stylesheets.  For a same-domain resource `R` referenced from page
`P` by an anchor or plain-link `href` or an image or script `src`, the
rewritten attribute value, resolved relative to the parent directory of
`P`'s LocalPath, yields exactly `R`'s LocalPath (the `ValueError` fallback
to the absolute LocalPath is unreachable on POSIX, where `os.path.relpath`
is total).  A stylesheet link `href`, however, is rewritten a second time
from the URL obtained by re-joining the first relative value against the
page URL: its final value resolves to that re-joined URL's LocalPath, which
can differ from `R`'s LocalPath (see the counterexample).  The output root
must not itself contain `"."`/`".."` segments. -/
theorem claim3_rewrite_resolution_amended (d : String) (out : List String)
    (pU : Url) (hout : ∀ s ∈ out, s ≠ "." ∧ s ≠ "..") (e : HtmlElem) (u : Url)
    (hu : u.host = d) :
    ((e.tag = .a ∨ (e.tag = .link ∧ e.relStylesheet = false)) →
      e.href = some (.remote u) →
      ∃ rel : List String,
        (updateElem d out ((get_local_path out pU).dropLast) pU e).href =
          some (.localRef rel) ∧
        resolveSegs ((get_local_path out pU).dropLast) rel =
          get_local_path out u) ∧
    ((e.tag = .img ∨ e.tag = .script) → e.src = some (.remote u) →
      ∃ rel : List String,
        (updateElem d out ((get_local_path out pU).dropLast) pU e).src =
          some (.localRef rel) ∧
        resolveSegs ((get_local_path out pU).dropLast) rel =
          get_local_path out u) ∧
    (e.tag = .link → e.relStylesheet = true → e.href = some (.remote u) →
      pU.host = d →
      ∃ rel : List String,
        (updateElem d out ((get_local_path out pU).dropLast) pU e).href =
          some (.localRef rel) ∧
        resolveSegs ((get_local_path out pU).dropLast) rel =
          get_local_path out (rejoin pU
            (relpathSegs (get_local_path out u)
              ((get_local_path out pU).dropLast)))) := by
  refine ⟨fun h hhref => ?_, fun h hsrc => ?_, fun h hs hhref hpd => ?_⟩
  · refine ⟨relpathSegs (get_local_path out u) ((get_local_path out pU).dropLast),
      ?_, ?_⟩
    · rw [updateElem_href_rewrites out _ pU h hhref hu]
      rfl
    · exact resolveSegs_relpathSegs _ _ (get_local_path_ne_dots hout u)
  · refine ⟨relpathSegs (get_local_path out u) ((get_local_path out pU).dropLast),
      ?_, ?_⟩
    · rw [updateElem_src_rewrites out _ pU h hsrc hu]
      rfl
    · exact resolveSegs_relpathSegs _ _ (get_local_path_ne_dots hout u)
  · refine ⟨relpathSegs (get_local_path out
        (rejoin pU (relpathSegs (get_local_path out u)
          ((get_local_path out pU).dropLast))))
        ((get_local_path out pU).dropLast), ?_, ?_⟩
    · rw [updateElem_stylesheet_value out _ pU h hs hhref hu hpd]
      rfl
    · exact resolveSegs_relpathSegs _ _ (get_local_path_ne_dots hout _)

/-- C3 witness: a rewritten anchor to `http://h/a` on page `http://h/b`
resolves back to `out/a.html`, and the doubly-rewritten stylesheet value on
page `http://h/p` resolves to the re-joined URL's LocalPath. -/
theorem claim3_amended_witness :
    get_local_path ["out"] uA = ["out", "a.html"] ∧
    (∃ rel : List String,
      (updateElem "h" ["out"] ((get_local_path ["out"] uB).dropLast) uB
          (anchorTo uA)).href = some (.localRef rel) ∧
      resolveSegs ((get_local_path ["out"] uB).dropLast) rel =
        get_local_path ["out"] uA) ∧
    (∃ rel : List String,
      (updateElem "h" ["out"] ((get_local_path ["out"] uP).dropLast) uP
          (stylesheetTo uStyleDot)).href = some (.localRef rel) ∧
      resolveSegs ((get_local_path ["out"] uP).dropLast) rel =
        get_local_path ["out"] (rejoin uP
          (relpathSegs (get_local_path ["out"] uStyleDot)
            ((get_local_path ["out"] uP).dropLast)))) := by
  refine ⟨by decide, ?_, ?_⟩
  · exact (claim3_rewrite_resolution_amended "h" ["out"] uB (by decide)
      (anchorTo uA) uA (by decide)).1 (Or.inl (by decide)) (by decide)
  · exact (claim3_rewrite_resolution_amended "h" ["out"] uP (by decide)
      (stylesheetTo uStyleDot) uStyleDot (by decide)).2.2 (by decide) (by decide)
      (by decide) (by decide)
